import Mathlib

/-!
# cppTGAPlot: `TGAImage` range inference and rasterisation

A shallow embedding of `src/lib/tgaImage.cpp`.

## Number model

The C++ code computes with `double`.  The embedding uses `Dbl`: the three special
values NaN, -∞ and +∞ together with the finite values, which are carried as exact
rationals.  The special values follow IEEE 754 (NaN propagates, every ordered
comparison with NaN is false, `∞ - ∞`, `0 * ∞` and `0 / 0` are NaN, a nonzero
finite value divided by zero is an infinity).  Finite arithmetic is exact: rounding
to 53 bits, overflow and the sign of zero are not represented; `isnormal` treats
magnitudes below `2^-1022` as subnormal.

## Reading of source text that is not well-formed C++

* `computeRange` declares `pad_x`, `pad_y` and then reads and writes `pad_lx`,
  `pad_ly`, which are declared nowhere in the file.  They are carried as members of
  `TGAImage` whose value before the call is arbitrary; `clear` does not touch them.
* line 120 iterates `arr` (the tuple) where line 146 iterates `yarr`; the loop is
  read over `yarr`, the vector bound on the line before it.
* lines 127-131 and 153-157 call `func(x)` on the tuple; the call is read on the
  function component, as lines 265-276 do with `foo`.
* lines 253-254 mix `size_t`, `double` and `int` in `std::min`/`std::max`; the
  operands are read in `double` (the usual arithmetic conversion) and the result is
  converted to `int64_t`.
* line 355 calls `addfFunc(*curr_color, f)`; it is read as the overload of lines
  367-370, which stores the entry.
* the overload `addArray(style, sz, array)` of lines 404-415 reads `xarr[ii]` and
  `yarr[ii]`, which it does not declare; they are taken as further arguments.
* lines 296-308 write the pixel data from `range`, `in`, `log` and `min`, none of
  which is declared; that part of `write` is not embedded.
-/

namespace TGAPlot

/-! ## Doubles -/

/-- Values of the C++ type `double`: NaN, the two infinities, and finite values. -/
inductive Dbl where
  | nan : Dbl
  | ninf : Dbl
  | pinf : Dbl
  | fin (q : ℚ) : Dbl
  deriving DecidableEq, Repr

namespace Dbl

/-- The sum of two doubles (`a + b`). -/
def add : Dbl → Dbl → Dbl
  | nan, _ => nan
  | _, nan => nan
  | pinf, ninf => nan
  | ninf, pinf => nan
  | pinf, _ => pinf
  | _, pinf => pinf
  | ninf, _ => ninf
  | _, ninf => ninf
  | fin a, fin b => fin (a + b)

/-- The negation of a double (`-a`). -/
def neg : Dbl → Dbl
  | nan => nan
  | ninf => pinf
  | pinf => ninf
  | fin a => fin (-a)

/-- The difference of two doubles (`a - b`). -/
def sub (a b : Dbl) : Dbl := add a (neg b)

/-- The sign of a double that is not NaN: `-1`, `0` or `1`. -/
def sgn : Dbl → Int
  | nan => 0
  | ninf => -1
  | pinf => 1
  | fin a => if 0 < a then 1 else if a < 0 then -1 else 0

/-- The infinity of the given sign, NaN for sign `0`. -/
def infOf (s : Int) : Dbl :=
  if 0 < s then pinf else if s < 0 then ninf else nan

/-- The product of two doubles (`a * b`). -/
def mul : Dbl → Dbl → Dbl
  | nan, _ => nan
  | _, nan => nan
  | fin a, fin b => fin (a * b)
  | a, b => infOf (sgn a * sgn b)

/-- The quotient of two doubles (`a / b`). -/
def div : Dbl → Dbl → Dbl
  | nan, _ => nan
  | _, nan => nan
  | fin a, fin b => if b = 0 then infOf (sgn (fin a)) else fin (a / b)
  | fin _, _ => fin 0
  | pinf, fin b => if 0 ≤ b then pinf else ninf
  | ninf, fin b => if 0 ≤ b then ninf else pinf
  | _, _ => nan

/-- The comparison `a < b`; false when either side is NaN. -/
def lt : Dbl → Dbl → Bool
  | nan, _ => false
  | _, nan => false
  | ninf, ninf => false
  | ninf, _ => true
  | _, ninf => false
  | pinf, _ => false
  | _, pinf => true
  | fin a, fin b => decide (a < b)

/-- The comparison `a <= b`; false when either side is NaN. -/
def le : Dbl → Dbl → Bool
  | nan, _ => false
  | _, nan => false
  | ninf, _ => true
  | _, pinf => true
  | pinf, _ => false
  | _, ninf => false
  | fin a, fin b => decide (a ≤ b)

/-- The comparison `a > b`. -/
def gt (a b : Dbl) : Bool := lt b a

/-- The least positive normal double, `DBL_MIN = 2^-1022`. -/
def minNormal : ℚ := 1 / 2 ^ 1022

/-- The classification `isnormal(a)`: finite, not zero and not subnormal. -/
def isnormal : Dbl → Bool
  | fin a => decide (minNormal ≤ a ∨ a ≤ -minNormal)
  | _ => false

/-- Rounding of a rational to the nearest integer, halves away from zero. -/
def roundQ (q : ℚ) : ℤ :=
  if 0 ≤ q then ⌊q + 1 / 2⌋ else -⌊-q + 1 / 2⌋

/-- The C function `round` on doubles. -/
def round : Dbl → Dbl
  | fin a => fin (roundQ a)
  | a => a

/-- The conversion of a double to `int64_t`: truncation for finite values; the
x86-64 "integer indefinite" value for NaN and the infinities. -/
def toInt64 : Dbl → Int
  | fin a => if 0 ≤ a then ⌊a⌋ else ⌈a⌉
  | _ => -(2 : Int) ^ 63

/-- The conversion of a `size_t` to `double`. -/
def ofNat (n : Nat) : Dbl := fin (n : ℚ)

/-- The template `std::min(a, b)`: `b` when `b < a`, else `a`. -/
def min (a b : Dbl) : Dbl := if lt b a then b else a

/-- The template `std::max(a, b)`: `b` when `a < b`, else `a`. -/
def max (a b : Dbl) : Dbl := if lt a b then b else a

end Dbl

instance : Add Dbl := ⟨Dbl.add⟩
instance : Sub Dbl := ⟨Dbl.sub⟩
instance : Mul Dbl := ⟨Dbl.mul⟩
instance : Div Dbl := ⟨Dbl.div⟩

/-! ## The plot model -/

/-- The style of a plotted entry.  `StyleT` is declared in `tgaImage.h`; the source
file only builds it from a style token (`StyleT("r")`) and reads its `rgba`
member, so a style is carried as its token. -/
structure StyleT where
  token : String
  deriving DecidableEq, Repr

/-- An element of `arrs`: `tuple<StyleT, vector<double>, vector<double>>`. -/
abbrev Series := StyleT × List Dbl × List Dbl

/-- An element of `funcs`: `tuple<StyleT, double(*)(double)>`. -/
abbrev FuncEntry := StyleT × (Dbl → Dbl)

/-- The members of `TGAImage` used by `tgaImage.cpp`.  `curr_color` is the
position of the iterator in `colors` (`colors.size()` stands for `colors.end()`).
`pad_lx` and `pad_ly` are the names `computeRange` reads and writes without
declaring them. -/
structure TGAImage where
  res : Nat × Nat
  xrange : Dbl × Dbl
  yrange : Dbl × Dbl
  axes : Bool
  colors : List StyleT
  curr_color : Nat
  funcs : List FuncEntry
  arrs : List Series
  pad_lx : Bool
  pad_ly : Bool

/-- The palette that `clear` installs (lines 43-54). -/
def palette : List StyleT :=
  [⟨"r"⟩, ⟨"g"⟩, ⟨"b"⟩, ⟨"y"⟩, ⟨"c"⟩, ⟨"p"⟩, ⟨"-r"⟩, ⟨"-g"⟩, ⟨"-b"⟩, ⟨"-y"⟩, ⟨"-c"⟩, ⟨"-p"⟩]

/-- The method `TGAImage::clear` (lines 32-62). -/
def clear (img : TGAImage) : TGAImage :=
  { img with
    res := (1024, 768)
    xrange := (Dbl.nan, Dbl.nan)
    yrange := (Dbl.nan, Dbl.nan)
    axes := false
    colors := palette
    curr_color := 0
    funcs := []
    arrs := [] }

/-- The constructor `TGAImage::TGAImage(xres, yres)` (lines 25-30), run on an object
whose members hold `raw` before the constructor body. -/
def TGAImage.new (raw : TGAImage) (xres yres : Nat) : TGAImage :=
  { clear raw with res := (xres, yres) }

/-- An object before construction, with the given values of `pad_lx` and `pad_ly`. -/
def rawImage (pad_lx0 pad_ly0 : Bool) : TGAImage :=
  { res := (0, 0), xrange := (Dbl.nan, Dbl.nan), yrange := (Dbl.nan, Dbl.nan), axes := false,
    colors := [], curr_color := 0, funcs := [], arrs := [], pad_lx := pad_lx0, pad_ly := pad_ly0 }

/-- The method `TGAImage::setXRange` (lines 321-325). -/
def setXRange (img : TGAImage) (low high : Dbl) : TGAImage :=
  { img with xrange := (low, high) }

/-- The method `TGAImage::setYRange` (lines 335-339). -/
def setYRange (img : TGAImage) (low high : Dbl) : TGAImage :=
  { img with yrange := (low, high) }

/-- The method `TGAImage::addFunc(style, f)` that stores the entry (lines 367-370). -/
def addFuncStyled (img : TGAImage) (style : StyleT) (f : Dbl → Dbl) : TGAImage :=
  { img with funcs := img.funcs ++ [(style, f)] }

/-- The method `TGAImage::addFunc(f)` (lines 353-359): stores the entry with
`*curr_color`, advances the cursor and wraps it at `colors.end()`. -/
def addFunc (img : TGAImage) (f : Dbl → Dbl) : TGAImage :=
  let img1 := addFuncStyled img (img.colors.getD img.curr_color ⟨""⟩) f
  let c := img1.curr_color + 1
  { img1 with curr_color := if c = img1.colors.length then 0 else c }

/-- The method `TGAImage::addArray(sz, xarr, yarr)` (lines 388-402).  The arrays
behind the two pointers are given by their elements `xarr i`, `yarr i`. -/
def addArrayXY (img : TGAImage) (sz : Nat) (xarr yarr : Nat → Dbl) : TGAImage :=
  let tmpx := (List.range sz).map xarr
  let tmpy := (List.range sz).map yarr
  let img1 := { img with arrs := img.arrs ++ [(img.colors.getD img.curr_color ⟨""⟩, tmpx, tmpy)] }
  { img1 with curr_color := if img1.curr_color = img1.colors.length then 0 else img1.curr_color }

/-- The C array holding the elements of `l`. -/
def arrayOf (l : List Dbl) : Nat → Dbl := fun i => l.getD i Dbl.nan

/-! ## `computeRange` -/

/-- The inner loop `for (v : vals) if (v < cur) cur = v;` (lines 88-91). -/
def minLoop (vals : List Dbl) (cur : Dbl) : Dbl :=
  vals.foldl (fun acc v => if Dbl.lt v acc then v else acc) cur

/-- The inner loop `for (v : vals) if (v > cur) cur = v;` (lines 101-104). -/
def maxLoop (vals : List Dbl) (cur : Dbl) : Dbl :=
  vals.foldl (fun acc v => if Dbl.gt v acc then v else acc) cur

/-- The values `func(xrange[0] + ii*step)` for `ii = 0 .. xres-1` in loop order
(lines 128-131). -/
def funcSamples (foo : Dbl → Dbl) (xlow xhigh : Dbl) (xres : Nat) : List Dbl :=
  let step := (xhigh - xlow) / Dbl.ofNat xres
  (List.range xres).map (fun ii => foo (xlow + Dbl.ofNat ii * step))

/-- The minimum pass over the x-vectors of all series (lines 85-92). -/
def xLowPass (arrs : List Series) : Dbl :=
  arrs.foldl (fun acc arr => minLoop arr.2.1 acc) Dbl.pinf

/-- The maximum pass over the x-vectors of all series (lines 98-105). -/
def xHighPass (arrs : List Series) : Dbl :=
  arrs.foldl (fun acc arr => maxLoop arr.2.1 acc) Dbl.ninf

/-- The minimum pass over the y-vectors of all series and then over the samples of
all functions (lines 115-135). -/
def yLowPass (arrs : List Series) (funcs : List FuncEntry) (xlow xhigh : Dbl) (xres : Nat) : Dbl :=
  let fromArrs := arrs.foldl (fun acc arr => minLoop arr.2.2 acc) Dbl.pinf
  funcs.foldl (fun acc func => minLoop (funcSamples func.2 xlow xhigh xres) acc) fromArrs

/-- The maximum pass over the y-vectors of all series and then over the samples of
all functions (lines 141-161). -/
def yHighPass (arrs : List Series) (funcs : List FuncEntry) (xlow xhigh : Dbl) (xres : Nat) : Dbl :=
  let fromArrs := arrs.foldl (fun acc arr => maxLoop arr.2.2 acc) Dbl.ninf
  funcs.foldl (fun acc func => maxLoop (funcSamples func.2 xlow xhigh xres) acc) fromArrs

/-- The padding step shared by lines 107-110 and 163-166: `pad = (high-low)*1.05`,
`low -= pad/2` when the low flag is set, `high += pad/2`. -/
def padRange (low high : Dbl) (padLow : Bool) : Dbl × Dbl :=
  let pad := (high - low) * Dbl.fin (105 / 100)
  (if padLow then low - pad / Dbl.fin 2 else low, high + pad / Dbl.fin 2)

/-- Lines 83-95 of `computeRange`: the low x bound. -/
def computeXLow (img : TGAImage) : TGAImage :=
  if !Dbl.isnormal img.xrange.1 then
    { img with xrange := (xLowPass img.arrs, img.xrange.2), pad_lx := true }
  else img

/-- Lines 96-111 of `computeRange`: the high x bound and the padding. -/
def computeXHigh (img : TGAImage) : TGAImage :=
  if !Dbl.isnormal img.xrange.2 then
    { img with xrange := padRange img.xrange.1 (xHighPass img.arrs) img.pad_lx }
  else img

/-- Lines 113-137 of `computeRange`: the low y bound. -/
def computeYLow (img : TGAImage) (xres : Nat) : TGAImage :=
  if !Dbl.isnormal img.yrange.1 then
    { img with
      yrange := (yLowPass img.arrs img.funcs img.xrange.1 img.xrange.2 xres, img.yrange.2)
      pad_ly := true }
  else img

/-- Lines 139-167 of `computeRange`: the high y bound and the padding. -/
def computeYHigh (img : TGAImage) (xres : Nat) : TGAImage :=
  if !Dbl.isnormal img.yrange.2 then
    { img with
      yrange := padRange img.yrange.1
        (yHighPass img.arrs img.funcs img.xrange.1 img.xrange.2 xres) img.pad_ly }
  else img

/-- The method `TGAImage::computeRange` (lines 77-168). -/
def computeRange (img : TGAImage) (xres : Nat) : TGAImage :=
  computeYHigh (computeYLow (computeXHigh (computeXLow img)) xres) xres

/-! ## Rasterisation in `write` -/

/-- One write into `buffer`: the column `xi`, the row `yi` and the style whose
`rgba` is stored at `buffer[yi*xres+xi]`. -/
structure Pixel where
  xi : Int
  yi : Int
  sty : StyleT
  deriving DecidableEq, Repr

/-- How a loop of `write` stands after the steps it was allowed: it has exited,
it is still running, or the `assert` of line 233 has failed. -/
inductive Status where
  | finished : Status
  | running : Status
  | aborted : Status
  deriving DecidableEq, Repr

/-- The pixels written so far and the state of the loop that writes them. -/
structure Run where
  pixels : List Pixel
  status : Status
  deriving DecidableEq, Repr

/-- The `size_t` expression `n-1`, which wraps around at `n = 0`. -/
def sizePred (n : Nat) : Nat := (n + 2 ^ 64 - 1) % 2 ^ 64

/-- The clamped index of lines 253-254: `std::max(std::min(n-1, round(p)), 0)`
converted to `int64_t`. -/
def clampIndex (n : Nat) (p : Dbl) : Int :=
  Dbl.toInt64 (Dbl.max (Dbl.min (Dbl.ofNat (sizePred n)) (Dbl.round p)) (Dbl.fin 0))

/-- The step normalisation of lines 244-250, giving the new `(dx, dy)`. -/
def normalizeStep (dx dy : Dbl) : Dbl × Dbl :=
  if Dbl.gt dx dy then (dx / (dx + Dbl.fin 1), dy / (dx + Dbl.fin 1))
  else (dx / (dy + Dbl.fin 1), dy / (dy + Dbl.fin 1))

/-- The loop of lines 252-259, `for( ; xp <= xf && yp <= yf; xp+=dx, yp+=dy)`, run
for at most `fuel` tests of its condition. -/
def walk (xres yres : Nat) (sty : StyleT) (xf yf dx dy : Dbl) : Nat → Dbl → Dbl → Run
  | 0, _, _ => ⟨[], Status.running⟩
  | fuel + 1, xp, yp =>
    if Dbl.le xp xf && Dbl.le yp yf then
      let r := walk xres yres sty xf yf dx dy fuel (xp + dx) (yp + dy)
      ⟨⟨clampIndex xres xp, clampIndex yres yp, sty⟩ :: r.pixels, r.status⟩
    else ⟨[], Status.finished⟩

/-- The body of the loop over `ii` (lines 236-259) for the segment from
`(x0, y0)` to `(x1, y1)`. -/
def segment (xres yres : Nat) (xlow ylow xstep ystep : Dbl) (sty : StyleT) (fuel : Nat)
    (x0 x1 y0 y1 : Dbl) : Run :=
  let xp := (x0 - xlow) / xstep
  let xf := (x1 - xlow) / xstep
  let dx := xf - xp
  let yp := (y0 - ylow) / ystep
  let yf := (y1 - ylow) / ystep
  let dy := yf - yp
  let d := normalizeStep dx dy
  walk xres yres sty xf yf d.1 d.2 fuel xp yp

/-- Sequencing of two runs: the second one starts only when the first has exited. -/
def Run.andThen (r : Run) (next : Unit → Run) : Run :=
  match r.status with
  | Status.finished => let r2 := next (); ⟨r.pixels ++ r2.pixels, r2.status⟩
  | _ => r

/-- The loop `for(size_t ii=1; ii<xarr.size(); ii++)` of lines 235-260 from index
`ii` on, with `todo` iterations left. -/
def seriesLoop (xres yres : Nat) (xlow ylow xstep ystep : Dbl) (sty : StyleT) (fuel : Nat)
    (xarr yarr : List Dbl) : Nat → Nat → Run
  | 0, _ => ⟨[], Status.finished⟩
  | todo + 1, ii =>
    (segment xres yres xlow ylow xstep ystep sty fuel
      (xarr.getD (ii - 1) Dbl.nan) (xarr.getD ii Dbl.nan)
      (yarr.getD (ii - 1) Dbl.nan) (yarr.getD ii Dbl.nan)).andThen
      (fun _ => seriesLoop xres yres xlow ylow xstep ystep sty fuel xarr yarr todo (ii + 1))

/-- The body of the loop over `arrs` (lines 230-260) for one series: the `assert`
and the walk over its segments. -/
def plotSeries (xres yres : Nat) (xlow ylow xstep ystep : Dbl) (fuel : Nat) (arr : Series) : Run :=
  if arr.2.1.length = arr.2.2.length then
    seriesLoop xres yres xlow ylow xstep ystep arr.1 fuel arr.2.1 arr.2.2 (arr.2.1.length - 1) 1
  else ⟨[], Status.aborted⟩

/-- The test of line 279 that keeps the `do`/`while` loop running:
`!((yip - yi) < 1)`. -/
def keepHalving (yip yi : Dbl) : Bool := !Dbl.lt (yip - yi) (Dbl.fin 1)

/-- The `do`/`while` loop of lines 274-279, run for at most `fuel` passes of its
body; on exit it gives the last `xx` and `yi`. -/
def stepHalving (foo : Dbl → Dbl) (ylow ystep xbase yip : Dbl) : Nat → Dbl → Option (Dbl × Dbl)
  | 0, _ => none
  | fuel + 1, dx =>
    let xx := xbase + dx
    let yy := foo xx
    let yi := (yy - ylow) / ystep
    if keepHalving yip yi then stepHalving foo ylow ystep xbase yip fuel (dx / Dbl.fin 2)
    else some (xx, yi)

/-- The loop `while(xx < xrange[1])` of lines 270-288, run for at most `outer`
tests of its condition, each `do`/`while` loop inside for at most `fuel` passes. -/
def funcLoop (xlow xhigh ylow xstep ystep : Dbl) (sty : StyleT) (foo : Dbl → Dbl) (fuel : Nat) :
    Nat → Dbl → Dbl → Run
  | 0, _, _ => ⟨[], Status.running⟩
  | outer + 1, xx, yip =>
    if Dbl.lt xx xhigh then
      match stepHalving foo ylow ystep xx yip fuel xstep with
      | none => ⟨[], Status.running⟩
      | some (xx1, yi) =>
        let r := funcLoop xlow xhigh ylow xstep ystep sty foo fuel outer xx1 yi
        ⟨⟨Dbl.toInt64 (Dbl.round ((xx1 - xlow) / xstep)), Dbl.toInt64 (Dbl.round yi), sty⟩ ::
          r.pixels, r.status⟩
    else ⟨[], Status.finished⟩

/-- The body of the loop over `funcs` (lines 264-288) for one function: `yip`
starts as NaN and `xx` as `xrange[0]`. -/
def plotFunc (xlow xhigh ylow xstep ystep : Dbl) (fuel : Nat) (func : FuncEntry) : Run :=
  funcLoop xlow xhigh ylow xstep ystep func.1 func.2 fuel fuel xlow Dbl.nan

/-- A list of loop bodies run one after the other. -/
def runAll {α : Type} (body : α → Run) : List α → Run
  | [] => ⟨[], Status.finished⟩
  | a :: rest => (body a).andThen (fun _ => runAll body rest)

/-- The buffer-filling part of `write(xres, yres, fname)` (lines 222-289) on the
model left by `computeRange`: all series, then all functions. -/
def rasterize (img : TGAImage) (xres yres fuel : Nat) : Run :=
  let xstep := (img.xrange.2 - img.xrange.1) / Dbl.ofNat xres
  let ystep := (img.yrange.2 - img.yrange.1) / Dbl.ofNat yres
  (runAll (plotSeries xres yres img.xrange.1 img.yrange.1 xstep ystep fuel) img.arrs).andThen
    (fun _ => runAll (plotFunc img.xrange.1 img.xrange.2 img.yrange.1 xstep ystep fuel) img.funcs)

/-- The method `TGAImage::write(xres, yres, fname)` up to line 289: the model after
`computeRange(xres)` and the writes into `buffer`. -/
def write (img : TGAImage) (xres yres fuel : Nat) : TGAImage × Run :=
  let img1 := computeRange img xres
  (img1, rasterize img1 xres yres fuel)

/-! ## Concrete models used below -/

/-- The series `xs=[0,1,2], ys=[0,1,0]` added to a fresh 100x100 model. -/
def triangleImage : TGAImage :=
  addArrayXY (TGAImage.new (rawImage false false) 100 100) 3
    (arrayOf [Dbl.fin 0, Dbl.fin 1, Dbl.fin 2]) (arrayOf [Dbl.fin 0, Dbl.fin 1, Dbl.fin 0])

/-- The double is a finite value (neither NaN nor an infinity). -/
def Dbl.isFinite : Dbl → Bool
  | Dbl.fin _ => true
  | _ => false

/-- The x-values of all series of the model, in the order `computeRange` visits
them. -/
def xData (img : TGAImage) : List Dbl :=
  (img.arrs.map (fun arr => arr.2.1)).flatten

/-- The y-values `computeRange` visits on the given x-range: the y-values of all
series, then the `xres` samples of every function. -/
def yData (img : TGAImage) (xlow xhigh : Dbl) (xres : Nat) : List Dbl :=
  (img.arrs.map (fun arr => arr.2.2)).flatten ++
    (img.funcs.map (fun func => funcSamples func.2 xlow xhigh xres)).flatten

/-- The y-values `computeRange img xres` visits, taken on the x-range it resolves. -/
def ySamples (img : TGAImage) (xres : Nat) : List Dbl :=
  yData img (computeRange img xres).xrange.1 (computeRange img xres).xrange.2 xres

/-- The low y bound of `computeRange img xres` before padding (line 115-135), on the
x-range it resolves. -/
def yLowRaw (img : TGAImage) (xres : Nat) : Dbl :=
  yLowPass img.arrs img.funcs (computeRange img xres).xrange.1 (computeRange img xres).xrange.2 xres

/-- The high y bound of `computeRange img xres` before padding (line 141-161), on the
x-range it resolves. -/
def yHighRaw (img : TGAImage) (xres : Nat) : Dbl :=
  yHighPass img.arrs img.funcs (computeRange img xres).xrange.1 (computeRange img xres).xrange.2 xres

/-- A fresh 100x100 model: no series, no functions, no pinned range. -/
def emptyImage : TGAImage := TGAImage.new (rawImage false false) 100 100

/-- The series `xs=[0,1,2], ys=[0,1,0]` and the function `x ↦ x*x` on a fresh
model. -/
def triangleSquareImage : TGAImage :=
  addFunc (addArrayXY emptyImage 3
    (arrayOf [Dbl.fin 0, Dbl.fin 1, Dbl.fin 2]) (arrayOf [Dbl.fin 0, Dbl.fin 1, Dbl.fin 0]))
    (fun x => x * x)

/-- The scenario "function `f` over the x-range pinned to [0, 6.2832], resolution
200x50". -/
def pinnedFromZeroImage (f : Dbl → Dbl) : TGAImage :=
  setXRange (addFunc (TGAImage.new (rawImage false false) 200 50) f) (Dbl.fin 0)
    (Dbl.fin (62832 / 10000))

/-- The function `x ↦ x` on a fresh model with both ranges pinned to [1, 2]. -/
def identityImage : TGAImage :=
  setYRange (setXRange (addFunc emptyImage (fun x => x)) (Dbl.fin 1) (Dbl.fin 2))
    (Dbl.fin 1) (Dbl.fin 2)

/-- The scenario `addSeries(xs=[0,0], ys=[5,5])` on a fresh model, no pinned range. -/
def zeroSegmentImage : TGAImage :=
  addArrayXY emptyImage 2 (arrayOf [Dbl.fin 0, Dbl.fin 0]) (arrayOf [Dbl.fin 5, Dbl.fin 5])

/-- The series `xs=[0,0], ys=[5,5]` with the x-range pinned to [-1, 1] and the
y-range pinned to [1, 10]. -/
def zeroSegmentPinnedImage : TGAImage :=
  setYRange (setXRange zeroSegmentImage (Dbl.fin (-1)) (Dbl.fin 1)) (Dbl.fin 1) (Dbl.fin 10)

/-- The column that the series loop of `write` gives to the data value `x`: `xstep`
of line 226, the quotient of line 236 and the clamp of line 253. -/
def column (xres : Nat) (xlow xhigh x : Dbl) : Int :=
  clampIndex xres ((x - xlow) / ((xhigh - xlow) / Dbl.ofNat xres))

/-- The row that the series loop of `write` gives to the data value `y`: `ystep` of
line 227, the quotient of line 239 and the clamp of line 254. -/
def row (yres : Nat) (ylow yhigh y : Dbl) : Int :=
  clampIndex yres ((y - ylow) / ((yhigh - ylow) / Dbl.ofNat yres))

/-- The pixel lies on the `xres` x `yres` canvas and its buffer index
`yi*xres+xi` is below `xres*yres`. -/
def Pixel.inBounds (xres yres : Nat) (p : Pixel) : Prop :=
  0 ≤ p.xi ∧ p.xi ≤ (xres : Int) - 1 ∧ 0 ≤ p.yi ∧ p.yi ≤ (yres : Int) - 1 ∧
    p.yi * (xres : Int) + p.xi < (xres : Int) * (yres : Int)

/-! ## The remaining methods -/

/-- The method `TGAImage::setRes` (lines 347-351). -/
def setRes (img : TGAImage) (xres yres : Nat) : TGAImage :=
  { img with res := (xres, yres) }

/-- The method `TGAImage::addArray(sz, array)` (lines 372-386): the x-vector is
filled with `ii`, the y-vector with `array[ii]`; the entry takes `*curr_color`, and
the cursor is only tested against `colors.end()`. -/
def addArray (img : TGAImage) (sz : Nat) (array : Nat → Dbl) : TGAImage :=
  let tmpx := (List.range sz).map (fun ii => Dbl.ofNat ii)
  let tmpy := (List.range sz).map array
  let img1 := { img with arrs := img.arrs ++ [(img.colors.getD img.curr_color ⟨""⟩, tmpx, tmpy)] }
  { img1 with curr_color := if img1.curr_color = img1.colors.length then 0 else img1.curr_color }

/-- The method `TGAImage::addArray(style, sz, array)` (lines 404-415).  Its body
fills both vectors of size `sz` from `xarr[ii]`, `yarr[ii]`, names it does not
declare; they are taken as further arguments, and `array` is not read. -/
def addArrayStyled (img : TGAImage) (style : StyleT) (sz : Nat) (_array xarr yarr : Nat → Dbl) :
    TGAImage :=
  { img with arrs := img.arrs ++ [(style, (List.range sz).map xarr, (List.range sz).map yarr)] }

/-- The method `TGAImage::addArray(style, sz, xarr, yarr)` (lines 417-428). -/
def addArrayStyledXY (img : TGAImage) (style : StyleT) (sz : Nat) (xarr yarr : Nat → Dbl) :
    TGAImage :=
  { img with arrs := img.arrs ++ [(style, (List.range sz).map xarr, (List.range sz).map yarr)] }

/-- The method `TGAImage::addFunc(style, f)` of lines 361-365: builds the `StyleT`
and hands over to the storing overload. -/
def addFuncToken (img : TGAImage) (style : String) (f : Dbl → Dbl) : TGAImage :=
  addFuncStyled img ⟨style⟩ f

/-- The call `o.put(v)`: the value converted to `char`, one byte on the stream. -/
def putByte (v : Nat) : Nat := v % 256

/-- The bytes that `write(xres, yres, fname)` puts on the stream in lines 183-214,
before anything else. -/
def header (xres yres : Nat) : List Nat :=
  [putByte 0, putByte 0, putByte 10,
   putByte 0, putByte 0, putByte 0, putByte 0, putByte 0,
   putByte 0, putByte 0,
   putByte 0, putByte 0,
   putByte (xres &&& 0x00FF), putByte ((xres &&& 0xFF00) / 256),
   putByte (yres &&& 0x00FF), putByte ((yres &&& 0xFF00) / 256),
   putByte 32,
   putByte 8]

/-- The method `TGAImage::write(fname)` (lines 69-72). -/
def writeDefault (img : TGAImage) (fuel : Nat) : TGAImage × Run :=
  write img img.res.1 img.res.2 fuel

/-- The divisor of the step normalisation (lines 244-250): `dx+1` when `dx > dy`,
otherwise `dy+1`. -/
def stepDivisor (dx dy : Dbl) : Dbl :=
  if Dbl.gt dx dy then dx + Dbl.fin 1 else dy + Dbl.fin 1

/-- Every series of the model has an x-vector and a y-vector of the same length, the
condition of the `assert` of line 233. -/
def lengthsAgree (img : TGAImage) : Prop :=
  ∀ arr ∈ img.arrs, arr.2.1.length = arr.2.2.length

/-- The row values `yi` of the samples that the loop `while(xx < xrange[1])` of lines
270-288 plots, in the order it plots them: the values assigned to `yip` at line
280.  The loop is run as in `funcLoop`. -/
def funcRows (xhigh ylow xstep ystep : Dbl) (foo : Dbl → Dbl) (fuel : Nat) :
    Nat → Dbl → Dbl → List Dbl
  | 0, _, _ => []
  | outer + 1, xx, yip =>
    if Dbl.lt xx xhigh then
      match stepHalving foo ylow ystep xx yip fuel xstep with
      | none => []
      | some (xx1, yi) => yi :: funcRows xhigh ylow xstep ystep foo fuel outer xx1 yi
    else []

/-- The row values of the samples plotted for one function by `write`: the loop
starts at `xx = xrange[0]` with `yip` NaN, as in `plotFunc`. -/
def plotFuncRows (xlow xhigh ylow xstep ystep : Dbl) (fuel : Nat) (foo : Dbl → Dbl) : List Dbl :=
  funcRows xhigh ylow xstep ystep foo fuel fuel xlow Dbl.nan

/-- The second row value is less than one row away from the first, above or
below: `|yip - yi| < 1`. -/
def withinOneRow (yip yi : Dbl) : Prop :=
  Dbl.lt (yip - yi) (Dbl.fin 1) = true ∧ Dbl.lt (yi - yip) (Dbl.fin 1) = true

/-- A function that is NaN left of zero and the identity from zero on. -/
def nanBelowZero (x : Dbl) : Dbl :=
  if Dbl.lt x (Dbl.fin 0) then Dbl.nan else x

/-- The function `nanBelowZero` on a fresh model with the x-range pinned to
[-1, 1] and no pinned y-range. -/
def nanBelowZeroImage : TGAImage :=
  setXRange (addFunc emptyImage nanBelowZero) (Dbl.fin (-1)) (Dbl.fin 1)

/-- The model after `functions` have been added one by one with `addFunc(f)`. -/
def addFuncs (img : TGAImage) (functions : List (Dbl → Dbl)) : TGAImage :=
  functions.foldl addFunc img

/-! ## Facts about doubles -/

theorem Dbl.add_def (a b : Dbl) : a + b = Dbl.add a b := rfl
theorem Dbl.sub_def (a b : Dbl) : a - b = Dbl.sub a b := rfl
theorem Dbl.mul_def (a b : Dbl) : a * b = Dbl.mul a b := rfl
theorem Dbl.div_def (a b : Dbl) : a / b = Dbl.div a b := rfl

@[simp] theorem Dbl.lt_nan_left (b : Dbl) : Dbl.lt Dbl.nan b = false := by cases b <;> rfl
@[simp] theorem Dbl.lt_nan_right (a : Dbl) : Dbl.lt a Dbl.nan = false := by cases a <;> rfl
@[simp] theorem Dbl.lt_ninf_right (a : Dbl) : Dbl.lt a Dbl.ninf = false := by cases a <;> rfl
@[simp] theorem Dbl.lt_pinf_left (b : Dbl) : Dbl.lt Dbl.pinf b = false := by cases b <;> rfl
@[simp] theorem Dbl.lt_ninf_pinf : Dbl.lt Dbl.ninf Dbl.pinf = true := rfl
@[simp] theorem Dbl.lt_ninf_fin (b : ℚ) : Dbl.lt Dbl.ninf (Dbl.fin b) = true := rfl
@[simp] theorem Dbl.lt_fin_pinf (a : ℚ) : Dbl.lt (Dbl.fin a) Dbl.pinf = true := rfl
@[simp] theorem Dbl.lt_fin_fin (a b : ℚ) : Dbl.lt (Dbl.fin a) (Dbl.fin b) = decide (a < b) := rfl

@[simp] theorem Dbl.le_nan_left (b : Dbl) : Dbl.le Dbl.nan b = false := by cases b <;> rfl
@[simp] theorem Dbl.le_nan_right (a : Dbl) : Dbl.le a Dbl.nan = false := by cases a <;> rfl
@[simp] theorem Dbl.le_ninf_ninf : Dbl.le Dbl.ninf Dbl.ninf = true := rfl
@[simp] theorem Dbl.le_ninf_pinf : Dbl.le Dbl.ninf Dbl.pinf = true := rfl
@[simp] theorem Dbl.le_ninf_fin (b : ℚ) : Dbl.le Dbl.ninf (Dbl.fin b) = true := rfl
@[simp] theorem Dbl.le_pinf_pinf : Dbl.le Dbl.pinf Dbl.pinf = true := rfl
@[simp] theorem Dbl.le_pinf_ninf : Dbl.le Dbl.pinf Dbl.ninf = false := rfl
@[simp] theorem Dbl.le_pinf_fin (b : ℚ) : Dbl.le Dbl.pinf (Dbl.fin b) = false := rfl
@[simp] theorem Dbl.le_fin_pinf (a : ℚ) : Dbl.le (Dbl.fin a) Dbl.pinf = true := rfl
@[simp] theorem Dbl.le_fin_ninf (a : ℚ) : Dbl.le (Dbl.fin a) Dbl.ninf = false := rfl
@[simp] theorem Dbl.le_fin_fin (a b : ℚ) : Dbl.le (Dbl.fin a) (Dbl.fin b) = decide (a ≤ b) := rfl

@[simp] theorem Dbl.fin_add_fin (a b : ℚ) : Dbl.fin a + Dbl.fin b = Dbl.fin (a + b) := rfl
@[simp] theorem Dbl.fin_sub_fin (a b : ℚ) : Dbl.fin a - Dbl.fin b = Dbl.fin (a - b) := by
  show Dbl.add (Dbl.fin a) (Dbl.neg (Dbl.fin b)) = _
  simp [Dbl.add, Dbl.neg, sub_eq_add_neg]
@[simp] theorem Dbl.fin_mul_fin (a b : ℚ) : Dbl.fin a * Dbl.fin b = Dbl.fin (a * b) := rfl
@[simp] theorem Dbl.fin_div_fin (a b : ℚ) (h : b ≠ 0) : Dbl.fin a / Dbl.fin b = Dbl.fin (a / b) := by
  show Dbl.div (Dbl.fin a) (Dbl.fin b) = _
  simp [Dbl.div, h]
@[simp] theorem Dbl.nan_sub (b : Dbl) : Dbl.nan - b = Dbl.nan := by cases b <;> rfl
@[simp] theorem Dbl.nan_add (b : Dbl) : Dbl.nan + b = Dbl.nan := by cases b <;> rfl
@[simp] theorem Dbl.round_fin (a : ℚ) : Dbl.round (Dbl.fin a) = Dbl.fin (Dbl.roundQ a) := rfl
@[simp] theorem Dbl.round_nan : Dbl.round Dbl.nan = Dbl.nan := rfl
@[simp] theorem Dbl.round_ninf : Dbl.round Dbl.ninf = Dbl.ninf := rfl
@[simp] theorem Dbl.round_pinf : Dbl.round Dbl.pinf = Dbl.pinf := rfl

theorem Dbl.min_fin_fin (a b : ℚ) :
    Dbl.min (Dbl.fin a) (Dbl.fin b) = Dbl.fin (if b < a then b else a) := by
  unfold Dbl.min
  rw [Dbl.lt_fin_fin]
  by_cases h : b < a <;> simp [h]

theorem Dbl.max_fin_fin (a b : ℚ) :
    Dbl.max (Dbl.fin a) (Dbl.fin b) = Dbl.fin (if a < b then b else a) := by
  unfold Dbl.max
  rw [Dbl.lt_fin_fin]
  by_cases h : a < b <;> simp [h]

theorem sizePred_le (n : Nat) (h : 1 ≤ n) : sizePred n ≤ n - 1 := by
  unfold sizePred
  have h1 : n + 2 ^ 64 - 1 = (n - 1) + 2 ^ 64 := by omega
  rw [h1, Nat.add_mod_right]
  exact Nat.mod_le _ _

theorem toInt64_intCast (z : ℤ) : Dbl.toInt64 (Dbl.fin (z : ℚ)) = z := by
  show (if (0 : ℚ) ≤ (z : ℚ) then ⌊(z : ℚ)⌋ else ⌈(z : ℚ)⌉) = z
  split_ifs <;> simp

/-- The clamp of lines 253-254 yields an index in `[0, n-1]` for every double. -/
theorem clampIndex_bounds (n : Nat) (h : 1 ≤ n) (p : Dbl) :
    0 ≤ clampIndex n p ∧ clampIndex n p ≤ (n : Int) - 1 := by
  have hm := sizePred_le n h
  have hm1 : ((sizePred n : ℕ) : ℤ) ≤ (n : ℤ) - 1 := by omega
  have hcast : Dbl.fin ((sizePred n : ℕ) : ℚ) = Dbl.fin (((sizePred n : ℕ) : ℤ) : ℚ) := by simp
  have h0 : Dbl.fin (0 : ℚ) = Dbl.fin ((0 : ℤ) : ℚ) := by simp
  have hA : Dbl.toInt64 (Dbl.fin ((sizePred n : ℕ) : ℚ)) = (sizePred n : ℤ) := by
    rw [hcast, toInt64_intCast]
  have hB : Dbl.toInt64 (Dbl.fin (0 : ℚ)) = 0 := by rw [h0, toInt64_intCast]
  unfold clampIndex Dbl.ofNat
  cases p with
  | nan =>
    simp only [Dbl.round_nan, Dbl.min, Dbl.max, Dbl.lt_nan_left, Dbl.lt_fin_fin, Bool.false_eq_true,
      if_false]
    split_ifs <;> first | (rw [hB]; omega) | (rw [hA]; omega)
  | ninf =>
    simp only [Dbl.round_ninf, Dbl.min, Dbl.max, Dbl.lt_ninf_fin, if_true]
    rw [hB]; omega
  | pinf =>
    simp only [Dbl.round_pinf, Dbl.min, Dbl.max, Dbl.lt_pinf_left, Dbl.lt_fin_fin, Bool.false_eq_true,
      if_false]
    split_ifs <;> first | (rw [hB]; omega) | (rw [hA]; omega)
  | fin q =>
    rw [Dbl.round_fin, Dbl.min_fin_fin, Dbl.max_fin_fin]
    by_cases h1 : ((Dbl.roundQ q : ℤ) : ℚ) < ((sizePred n : ℕ) : ℚ)
    · rw [if_pos h1]
      by_cases h2 : ((Dbl.roundQ q : ℤ) : ℚ) < 0
      · rw [if_pos h2, hB]; omega
      · rw [if_neg h2, toInt64_intCast]
        have h3 : (0 : ℤ) ≤ Dbl.roundQ q := by exact_mod_cast not_lt.mp h2
        have h4 : (Dbl.roundQ q : ℤ) < (sizePred n : ℤ) := by exact_mod_cast h1
        omega
    · rw [if_neg h1]
      have h5 : ¬ (((sizePred n : ℕ) : ℚ) < 0) := by
        have : (0 : ℚ) ≤ ((sizePred n : ℕ) : ℚ) := Nat.cast_nonneg _
        exact not_lt.mpr this
      rw [if_neg h5, hA]; omega

/-! ## Facts about the series walk -/

theorem inBounds_clamp (xres yres : Nat) (hx : 1 ≤ xres) (hy : 1 ≤ yres) (xp yp : Dbl)
    (sty : StyleT) : Pixel.inBounds xres yres ⟨clampIndex xres xp, clampIndex yres yp, sty⟩ := by
  obtain ⟨a1, a2⟩ := clampIndex_bounds xres hx xp
  obtain ⟨b1, b2⟩ := clampIndex_bounds yres hy yp
  refine ⟨a1, a2, b1, b2, ?_⟩
  show clampIndex yres yp * (xres : Int) + clampIndex xres xp < (xres : Int) * (yres : Int)
  have hx0 : (0 : Int) ≤ (xres : Int) := Int.ofNat_nonneg _
  have h1 : clampIndex yres yp * (xres : Int) ≤ ((yres : Int) - 1) * (xres : Int) :=
    Int.mul_le_mul_of_nonneg_right b2 hx0
  have h2 : ((yres : Int) - 1) * (xres : Int) = (xres : Int) * (yres : Int) - (xres : Int) := by ring
  omega

theorem walk_inBounds (xres yres : Nat) (hx : 1 ≤ xres) (hy : 1 ≤ yres) (sty : StyleT)
    (xf yf dx dy : Dbl) (fuel : Nat) :
    ∀ xp yp : Dbl, ∀ p ∈ (walk xres yres sty xf yf dx dy fuel xp yp).pixels,
      Pixel.inBounds xres yres p := by
  induction fuel with
  | zero => intro xp yp p hp; simp [walk] at hp
  | succ n ih =>
    intro xp yp p hp
    unfold walk at hp
    split_ifs at hp with hc
    · simp only [List.mem_cons] at hp
      rcases hp with rfl | hp
      · exact inBounds_clamp xres yres hx hy xp yp sty
      · exact ih _ _ p hp
    · simp at hp

theorem andThen_pixels_mem (r : Run) (next : Unit → Run) (p : Pixel)
    (hp : p ∈ (r.andThen next).pixels) : p ∈ r.pixels ∨ p ∈ (next ()).pixels := by
  unfold Run.andThen at hp
  split at hp
  · simp only [List.mem_append] at hp; exact hp
  · exact Or.inl hp

theorem seriesLoop_inBounds (xres yres : Nat) (hx : 1 ≤ xres) (hy : 1 ≤ yres)
    (xlow ylow xstep ystep : Dbl) (sty : StyleT) (fuel : Nat) (xarr yarr : List Dbl) (todo : Nat) :
    ∀ ii : Nat, ∀ p ∈ (seriesLoop xres yres xlow ylow xstep ystep sty fuel xarr yarr todo ii).pixels,
      Pixel.inBounds xres yres p := by
  induction todo with
  | zero => intro ii p hp; simp [seriesLoop] at hp
  | succ n ih =>
    intro ii p hp
    unfold seriesLoop at hp
    rcases andThen_pixels_mem _ _ p hp with h | h
    · exact walk_inBounds xres yres hx hy sty _ _ _ _ fuel _ _ p h
    · exact ih _ p h

theorem andThen_finished_nil (r : Run) :
    r.andThen (fun _ => ⟨[], Status.finished⟩) = r := by
  obtain ⟨px, st⟩ := r
  cases st <;> simp [Run.andThen]

theorem nil_andThen (next : Unit → Run) :
    (⟨[], Status.finished⟩ : Run).andThen next = next () := by
  simp [Run.andThen]

theorem runAll_single {α : Type} (body : α → Run) (a : α) : runAll body [a] = body a := by
  simp [runAll, andThen_finished_nil]

/-- A model with one series and no function: `write` rasterises that series. -/
theorem rasterize_single_series (img : TGAImage) (xres yres fuel : Nat) (arr : Series)
    (ha : img.arrs = [arr]) (hf : img.funcs = []) :
    rasterize img xres yres fuel =
      plotSeries xres yres img.xrange.1 img.yrange.1
        ((img.xrange.2 - img.xrange.1) / Dbl.ofNat xres)
        ((img.yrange.2 - img.yrange.1) / Dbl.ofNat yres) fuel arr := by
  unfold rasterize
  simp only [ha, hf, runAll_single]
  exact andThen_finished_nil _

/-- A series of two points: the series loop runs the one segment. -/
theorem plotSeries_two_points (xres yres : Nat) (xlow ylow xstep ystep : Dbl) (fuel : Nat)
    (sty : StyleT) (x0 x1 y0 y1 : Dbl) :
    plotSeries xres yres xlow ylow xstep ystep fuel (sty, [x0, x1], [y0, y1]) =
      segment xres yres xlow ylow xstep ystep sty fuel x0 x1 y0 y1 := by
  simp [plotSeries, seriesLoop, andThen_finished_nil]

/-- With both increments zero the loop of lines 252-259 never leaves a finite
position that satisfies its condition: after any number of steps it is still
running and has written the same pixel once per step. -/
theorem walk_zero_step (xres yres : Nat) (sty : StyleT) (xf yf : Dbl) (a b : ℚ)
    (hx : Dbl.le (Dbl.fin a) xf = true) (hy : Dbl.le (Dbl.fin b) yf = true) (fuel : Nat) :
    walk xres yres sty xf yf (Dbl.fin 0) (Dbl.fin 0) fuel (Dbl.fin a) (Dbl.fin b) =
      ⟨List.replicate fuel ⟨clampIndex xres (Dbl.fin a), clampIndex yres (Dbl.fin b), sty⟩,
        Status.running⟩ := by
  induction fuel with
  | zero => rfl
  | succ n ih =>
    unfold walk
    simp only [hx, hy, Bool.and_self, if_true, Dbl.fin_add_fin, add_zero]
    rw [ih]
    rfl

/-- A zero-length segment at a finite pixel position: the walk never terminates. -/
theorem segment_zero_length (xres yres : Nat) (xlow ylow xstep ystep : Dbl) (sty : StyleT)
    (x y : Dbl) (a b : ℚ) (hx : (x - xlow) / xstep = Dbl.fin a)
    (hy : (y - ylow) / ystep = Dbl.fin b) (fuel : Nat) :
    segment xres yres xlow ylow xstep ystep sty fuel x x y y =
      ⟨List.replicate fuel ⟨clampIndex xres (Dbl.fin a), clampIndex yres (Dbl.fin b), sty⟩,
        Status.running⟩ := by
  unfold segment
  simp only [hx, hy, Dbl.fin_sub_fin, sub_self]
  have hn : normalizeStep (Dbl.fin 0) (Dbl.fin 0) = (Dbl.fin 0, Dbl.fin 0) := by
    simp [normalizeStep, Dbl.gt]
  rw [hn]
  exact walk_zero_step xres yres sty _ _ a b (by simp) (by simp) fuel

/-- A segment whose end row lies below its start row in pixel space writes no
pixel: the loop condition `yp <= yf` fails at once. -/
theorem segment_descending (xres yres : Nat) (xlow ylow xstep ystep : Dbl) (sty : StyleT)
    (x0 x1 y0 y1 : Dbl) (a b : ℚ) (hp : (y0 - ylow) / ystep = Dbl.fin a)
    (hf : (y1 - ylow) / ystep = Dbl.fin b) (hab : b < a) (fuel : Nat) :
    segment xres yres xlow ylow xstep ystep sty (fuel + 1) x0 x1 y0 y1 =
      ⟨[], Status.finished⟩ := by
  unfold segment
  simp only [hp, hf]
  unfold walk
  have hle : Dbl.le (Dbl.fin a) (Dbl.fin b) = false := by
    rw [Dbl.le_fin_fin]; exact decide_eq_false (not_le.mpr hab)
  simp [hle]

/-! ## Facts about the function loop -/

/-- While `yip` is NaN the test of line 279 keeps the loop running. -/
theorem keepHalving_nan (yi : Dbl) : keepHalving Dbl.nan yi = true := by
  simp [keepHalving]

/-- With `yip` NaN the `do`/`while` loop of lines 274-279 does not exit, whatever
the function and however many passes it is given. -/
theorem stepHalving_nan (foo : Dbl → Dbl) (ylow ystep xbase : Dbl) (fuel : Nat) :
    ∀ dx : Dbl, stepHalving foo ylow ystep xbase Dbl.nan fuel dx = none := by
  induction fuel with
  | zero => intro dx; rfl
  | succ n ih =>
    intro dx
    unfold stepHalving
    simp only [keepHalving_nan, if_true]
    exact ih _

/-- On a range with `xlow < xhigh` the plot of a function never gets past its first
sample: no pixel is written and the loop is still running after any number of
steps. -/
theorem plotFunc_stuck (xlow xhigh ylow xstep ystep : Dbl) (fuel : Nat) (func : FuncEntry)
    (h : Dbl.lt xlow xhigh = true) :
    plotFunc xlow xhigh ylow xstep ystep fuel func = ⟨[], Status.running⟩ := by
  unfold plotFunc
  cases fuel with
  | zero => rfl
  | succ n =>
    unfold funcLoop
    simp [h, stepHalving_nan]

/-- A model with no series, at least one function and `xlow < xhigh`: the buffer
filling of `write` never terminates. -/
theorem rasterize_func_stuck (img : TGAImage) (xres yres fuel : Nat) (func : FuncEntry)
    (rest : List FuncEntry) (ha : img.arrs = []) (hf : img.funcs = func :: rest)
    (h : Dbl.lt img.xrange.1 img.xrange.2 = true) :
    rasterize img xres yres fuel = ⟨[], Status.running⟩ := by
  unfold rasterize
  simp only [ha, hf, runAll, nil_andThen]
  rw [plotFunc_stuck _ _ _ _ _ _ _ h]
  rfl

/-- The rows listed by `funcRows` are the rows of the pixels `funcLoop` writes. -/
theorem funcLoop_rows (xlow xhigh ylow xstep ystep : Dbl) (sty : StyleT) (foo : Dbl → Dbl)
    (fuel outer : Nat) :
    ∀ xx yip : Dbl,
      (funcLoop xlow xhigh ylow xstep ystep sty foo fuel outer xx yip).pixels.map (fun p => p.yi) =
        (funcRows xhigh ylow xstep ystep foo fuel outer xx yip).map
          (fun yi => Dbl.toInt64 (Dbl.round yi)) := by
  induction outer with
  | zero => intro xx yip; rfl
  | succ n ih =>
    intro xx yip
    unfold funcLoop funcRows
    split_ifs
    · split
      · rfl
      · simp only [List.map_cons]
        rw [ih]
    · rfl

/-- No sample of a function is ever plotted: the loop is entered with `yip` NaN. -/
theorem plotFuncRows_nil (xlow xhigh ylow xstep ystep : Dbl) (fuel : Nat) (foo : Dbl → Dbl) :
    plotFuncRows xlow xhigh ylow xstep ystep fuel foo = [] := by
  unfold plotFuncRows
  cases fuel with
  | zero => rfl
  | succ n =>
    unfold funcRows
    split_ifs
    · rw [stepHalving_nan]
    · rfl

/-- No pixel of a function is ever written, on any range. -/
theorem plotFunc_pixels_nil (xlow xhigh ylow xstep ystep : Dbl) (fuel : Nat) (func : FuncEntry) :
    (plotFunc xlow xhigh ylow xstep ystep fuel func).pixels = [] := by
  unfold plotFunc
  cases fuel with
  | zero => rfl
  | succ n =>
    unfold funcLoop
    split_ifs
    · rw [stepHalving_nan]
    · rfl

/-- The test of line 279 lets a sample pass that lies ten rows above the previous
row value. -/
theorem keepHalving_rising : keepHalving (Dbl.fin 9) (Dbl.fin 19) = false := by
  decide!

/-! ## Facts about the pixel mapping -/

theorem roundQ_mono (a b : ℚ) (h : a ≤ b) : Dbl.roundQ a ≤ Dbl.roundQ b := by
  unfold Dbl.roundQ
  by_cases ha : 0 ≤ a
  · have hb : 0 ≤ b := le_trans ha h
    rw [if_pos ha, if_pos hb]
    exact Int.floor_mono (by linarith)
  · rw [if_neg ha]
    by_cases hb : 0 ≤ b
    · rw [if_pos hb]
      have h1 : (0 : ℤ) ≤ ⌊-a + 1 / 2⌋ := Int.floor_nonneg.mpr (by linarith [not_le.mp ha])
      have h2 : (0 : ℤ) ≤ ⌊b + 1 / 2⌋ := Int.floor_nonneg.mpr (by linarith)
      omega
    · rw [if_neg hb]
      have h1 : ⌊-b + 1 / 2⌋ ≤ ⌊-a + 1 / 2⌋ := Int.floor_mono (by linarith)
      omega

theorem clampIndex_fin (n : Nat) (q : ℚ) :
    clampIndex n (Dbl.fin q) = max (min (sizePred n : ℤ) (Dbl.roundQ q)) 0 := by
  unfold clampIndex Dbl.ofNat
  rw [Dbl.round_fin, Dbl.min_fin_fin, Dbl.max_fin_fin]
  by_cases h1 : ((Dbl.roundQ q : ℤ) : ℚ) < ((sizePred n : ℕ) : ℚ)
  · have h1z : (Dbl.roundQ q : ℤ) < (sizePred n : ℤ) := by exact_mod_cast h1
    rw [if_pos h1, min_eq_right (le_of_lt h1z)]
    by_cases h2 : ((Dbl.roundQ q : ℤ) : ℚ) < 0
    · have h2z : (Dbl.roundQ q : ℤ) < 0 := by exact_mod_cast h2
      rw [if_pos h2, max_eq_right (le_of_lt h2z)]
      exact_mod_cast toInt64_intCast 0
    · have h2z : (0 : ℤ) ≤ Dbl.roundQ q := by exact_mod_cast not_lt.mp h2
      rw [if_neg h2, max_eq_left h2z, toInt64_intCast]
  · have h1z : (sizePred n : ℤ) ≤ Dbl.roundQ q := by exact_mod_cast not_lt.mp h1
    have h5 : ¬ (((sizePred n : ℕ) : ℚ) < 0) := not_lt.mpr (Nat.cast_nonneg _)
    rw [if_neg h1, if_neg h5, min_eq_left h1z, max_eq_left (Int.ofNat_nonneg _)]
    exact_mod_cast toInt64_intCast (sizePred n : ℤ)

theorem clampIndex_fin_mono (n : Nat) (a b : ℚ) (h : a ≤ b) :
    clampIndex n (Dbl.fin a) ≤ clampIndex n (Dbl.fin b) := by
  rw [clampIndex_fin, clampIndex_fin]
  exact max_le_max (min_le_min le_rfl (roundQ_mono a b h)) le_rfl

theorem pixelQuotient_fin (n : Nat) (hn : 1 ≤ n) (lo hi x : ℚ) (h : lo < hi) :
    (Dbl.fin x - Dbl.fin lo) / ((Dbl.fin hi - Dbl.fin lo) / Dbl.ofNat n) =
      Dbl.fin ((x - lo) / ((hi - lo) / (n : ℚ))) := by
  have hn0 : (n : ℚ) ≠ 0 := by
    have : (0 : ℚ) < (n : ℚ) := by exact_mod_cast hn
    exact ne_of_gt this
  have hstep : (hi - lo) / (n : ℚ) ≠ 0 := div_ne_zero (by linarith [sub_pos.mpr h]) hn0
  unfold Dbl.ofNat
  rw [Dbl.fin_sub_fin, Dbl.fin_sub_fin, Dbl.fin_div_fin _ _ hn0, Dbl.fin_div_fin _ _ hstep]

theorem pixel_mono (n : Nat) (hn : 1 ≤ n) (lo hi a b : ℚ) (h : lo < hi) (hab : a < b) :
    clampIndex n ((Dbl.fin a - Dbl.fin lo) / ((Dbl.fin hi - Dbl.fin lo) / Dbl.ofNat n)) ≤
      clampIndex n ((Dbl.fin b - Dbl.fin lo) / ((Dbl.fin hi - Dbl.fin lo) / Dbl.ofNat n)) := by
  rw [pixelQuotient_fin n hn lo hi a h, pixelQuotient_fin n hn lo hi b h]
  apply clampIndex_fin_mono
  have hpos : (0 : ℚ) < (hi - lo) / (n : ℚ) :=
    div_pos (sub_pos.mpr h) (by exact_mod_cast hn)
  exact div_le_div_of_nonneg_right (by linarith) (le_of_lt hpos)

/-- The pixel written first for a segment is at `column x0`, `row y0`: the mapping
`column`, `row` is the one the series loop applies. -/
theorem segment_first_pixel (xres yres : Nat) (xlow xhigh ylow yhigh : Dbl) (sty : StyleT)
    (fuel : Nat) (x0 x1 y0 y1 : Dbl)
    (h : (Dbl.le ((x0 - xlow) / ((xhigh - xlow) / Dbl.ofNat xres))
            ((x1 - xlow) / ((xhigh - xlow) / Dbl.ofNat xres)) &&
          Dbl.le ((y0 - ylow) / ((yhigh - ylow) / Dbl.ofNat yres))
            ((y1 - ylow) / ((yhigh - ylow) / Dbl.ofNat yres))) = true) :
    (segment xres yres xlow ylow ((xhigh - xlow) / Dbl.ofNat xres)
        ((yhigh - ylow) / Dbl.ofNat yres) sty (fuel + 1) x0 x1 y0 y1).pixels.head? =
      some ⟨column xres xlow xhigh x0, row yres ylow yhigh y0, sty⟩ := by
  unfold segment
  simp only []
  unfold walk
  rw [if_pos h]
  rfl

/-! ## Facts about `computeRange` -/

theorem minLoop_append (l1 l2 : List Dbl) (c : Dbl) :
    minLoop (l1 ++ l2) c = minLoop l2 (minLoop l1 c) := by
  unfold minLoop; rw [List.foldl_append]

theorem maxLoop_append (l1 l2 : List Dbl) (c : Dbl) :
    maxLoop (l1 ++ l2) c = maxLoop l2 (maxLoop l1 c) := by
  unfold maxLoop; rw [List.foldl_append]

theorem foldl_minLoop {α : Type} (g : α → List Dbl) (l : List α) (c : Dbl) :
    l.foldl (fun acc a => minLoop (g a) acc) c = minLoop ((l.map g).flatten) c := by
  induction l generalizing c with
  | nil => rfl
  | cons a rest ih =>
    rw [List.foldl_cons, ih, List.map_cons, List.flatten_cons, minLoop_append]

theorem foldl_maxLoop {α : Type} (g : α → List Dbl) (l : List α) (c : Dbl) :
    l.foldl (fun acc a => maxLoop (g a) acc) c = maxLoop ((l.map g).flatten) c := by
  induction l generalizing c with
  | nil => rfl
  | cons a rest ih =>
    rw [List.foldl_cons, ih, List.map_cons, List.flatten_cons, maxLoop_append]

theorem xLowPass_eq (img : TGAImage) : xLowPass img.arrs = minLoop (xData img) Dbl.pinf := by
  unfold xLowPass xData; exact foldl_minLoop _ _ _

theorem xHighPass_eq (img : TGAImage) : xHighPass img.arrs = maxLoop (xData img) Dbl.ninf := by
  unfold xHighPass xData; exact foldl_maxLoop _ _ _

theorem yLowPass_eq (img : TGAImage) (xlow xhigh : Dbl) (xres : Nat) :
    yLowPass img.arrs img.funcs xlow xhigh xres = minLoop (yData img xlow xhigh xres) Dbl.pinf := by
  unfold yLowPass yData
  rw [minLoop_append]
  simp only []
  rw [foldl_minLoop (fun arr : Series => arr.2.2),
    foldl_minLoop (fun func : FuncEntry => funcSamples func.2 xlow xhigh xres)]

theorem yHighPass_eq (img : TGAImage) (xlow xhigh : Dbl) (xres : Nat) :
    yHighPass img.arrs img.funcs xlow xhigh xres = maxLoop (yData img xlow xhigh xres) Dbl.ninf := by
  unfold yHighPass yData
  rw [maxLoop_append]
  simp only []
  rw [foldl_maxLoop (fun arr : Series => arr.2.2),
    foldl_maxLoop (fun func : FuncEntry => funcSamples func.2 xlow xhigh xres)]

theorem isFinite_iff (v : Dbl) : v.isFinite = true ↔ ∃ q, v = Dbl.fin q := by
  cases v <;> simp [Dbl.isFinite]

/-- The minimum loop started at a finite value over finite values. -/
theorem minLoop_fin (data : List Dbl) (hfin : ∀ v ∈ data, v.isFinite = true) (a : ℚ) :
    ∃ m : ℚ, minLoop data (Dbl.fin a) = Dbl.fin m ∧ m ≤ a ∧
      (∀ v : ℚ, Dbl.fin v ∈ data → m ≤ v) ∧ (m = a ∨ Dbl.fin m ∈ data) := by
  induction data generalizing a with
  | nil => exact ⟨a, rfl, le_rfl, by simp, Or.inl rfl⟩
  | cons x rest ih =>
    obtain ⟨q, rfl⟩ := (isFinite_iff x).mp (hfin x (List.mem_cons_self _ _))
    have hrest : ∀ v ∈ rest, v.isFinite = true := fun v hv => hfin v (List.mem_cons_of_mem _ hv)
    have hstep : minLoop (Dbl.fin q :: rest) (Dbl.fin a) =
        minLoop rest (Dbl.fin (if q < a then q else a)) := by
      unfold minLoop
      rw [List.foldl_cons, Dbl.lt_fin_fin]
      by_cases h : q < a <;> simp [h]
    obtain ⟨m, hm, hle, hall, hmem⟩ := ih hrest (if q < a then q else a)
    refine ⟨m, by rw [hstep, hm], ?_, ?_, ?_⟩
    · by_cases h : q < a
      · rw [if_pos h] at hle; linarith
      · rw [if_neg h] at hle; exact hle
    · intro v hv
      rcases List.mem_cons.mp hv with h | h
      · have hvq : v = q := by injection h
        subst hvq
        by_cases h : v < a
        · rw [if_pos h] at hle; exact hle
        · rw [if_neg h] at hle; linarith [not_lt.mp h]
      · exact hall v h
    · rcases hmem with h | h
      · by_cases hq : q < a
        · rw [if_pos hq] at h; right; rw [h]; exact List.mem_cons_self _ _
        · rw [if_neg hq] at h; left; exact h
      · right; exact List.mem_cons_of_mem _ h

/-- The maximum loop started at a finite value over finite values. -/
theorem maxLoop_fin (data : List Dbl) (hfin : ∀ v ∈ data, v.isFinite = true) (a : ℚ) :
    ∃ m : ℚ, maxLoop data (Dbl.fin a) = Dbl.fin m ∧ a ≤ m ∧
      (∀ v : ℚ, Dbl.fin v ∈ data → v ≤ m) ∧ (m = a ∨ Dbl.fin m ∈ data) := by
  induction data generalizing a with
  | nil => exact ⟨a, rfl, le_rfl, by simp, Or.inl rfl⟩
  | cons x rest ih =>
    obtain ⟨q, rfl⟩ := (isFinite_iff x).mp (hfin x (List.mem_cons_self _ _))
    have hrest : ∀ v ∈ rest, v.isFinite = true := fun v hv => hfin v (List.mem_cons_of_mem _ hv)
    have hstep : maxLoop (Dbl.fin q :: rest) (Dbl.fin a) =
        maxLoop rest (Dbl.fin (if a < q then q else a)) := by
      unfold maxLoop
      rw [List.foldl_cons, Dbl.gt, Dbl.lt_fin_fin]
      by_cases h : a < q <;> simp [h]
    obtain ⟨m, hm, hle, hall, hmem⟩ := ih hrest (if a < q then q else a)
    refine ⟨m, by rw [hstep, hm], ?_, ?_, ?_⟩
    · by_cases h : a < q
      · rw [if_pos h] at hle; linarith
      · rw [if_neg h] at hle; exact hle
    · intro v hv
      rcases List.mem_cons.mp hv with h | h
      · have hvq : v = q := by injection h
        subst hvq
        by_cases h : a < v
        · rw [if_pos h] at hle; exact hle
        · rw [if_neg h] at hle; linarith [not_lt.mp h]
      · exact hall v h
    · rcases hmem with h | h
      · by_cases hq : a < q
        · rw [if_pos hq] at h; right; rw [h]; exact List.mem_cons_self _ _
        · rw [if_neg hq] at h; left; exact h
      · right; exact List.mem_cons_of_mem _ h

/-- The minimum loop started at `INFINITY` over a non-empty list of finite values
ends at the least of them. -/
theorem minLoop_pinf (data : List Dbl) (hfin : ∀ v ∈ data, v.isFinite = true) (hne : data ≠ []) :
    ∃ m : ℚ, minLoop data Dbl.pinf = Dbl.fin m ∧
      (∀ v : ℚ, Dbl.fin v ∈ data → m ≤ v) ∧ Dbl.fin m ∈ data := by
  cases data with
  | nil => exact absurd rfl hne
  | cons x rest =>
    obtain ⟨q, rfl⟩ := (isFinite_iff x).mp (hfin x (List.mem_cons_self _ _))
    have hrest : ∀ v ∈ rest, v.isFinite = true := fun v hv => hfin v (List.mem_cons_of_mem _ hv)
    have hstep : minLoop (Dbl.fin q :: rest) Dbl.pinf = minLoop rest (Dbl.fin q) := by
      unfold minLoop
      rw [List.foldl_cons, Dbl.lt_fin_pinf]; simp
    obtain ⟨m, hm, hle, hall, hmem⟩ := minLoop_fin rest hrest q
    refine ⟨m, by rw [hstep, hm], ?_, ?_⟩
    · intro v hv
      rcases List.mem_cons.mp hv with h | h
      · have hvq : v = q := by injection h
        rw [hvq]; exact hle
      · exact hall v h
    · rcases hmem with h | h
      · rw [h]; exact List.mem_cons_self _ _
      · exact List.mem_cons_of_mem _ h

/-- The maximum loop started at `-INFINITY` over a non-empty list of finite values
ends at the greatest of them. -/
theorem maxLoop_ninf (data : List Dbl) (hfin : ∀ v ∈ data, v.isFinite = true) (hne : data ≠ []) :
    ∃ m : ℚ, maxLoop data Dbl.ninf = Dbl.fin m ∧
      (∀ v : ℚ, Dbl.fin v ∈ data → v ≤ m) ∧ Dbl.fin m ∈ data := by
  cases data with
  | nil => exact absurd rfl hne
  | cons x rest =>
    obtain ⟨q, rfl⟩ := (isFinite_iff x).mp (hfin x (List.mem_cons_self _ _))
    have hrest : ∀ v ∈ rest, v.isFinite = true := fun v hv => hfin v (List.mem_cons_of_mem _ hv)
    have hstep : maxLoop (Dbl.fin q :: rest) Dbl.ninf = maxLoop rest (Dbl.fin q) := by
      unfold maxLoop
      rw [List.foldl_cons, Dbl.gt, Dbl.lt_ninf_fin]; simp
    obtain ⟨m, hm, hle, hall, hmem⟩ := maxLoop_fin rest hrest q
    refine ⟨m, by rw [hstep, hm], ?_, ?_⟩
    · intro v hv
      rcases List.mem_cons.mp hv with h | h
      · have hvq : v = q := by injection h
        rw [hvq]; exact hle
      · exact hall v h
    · rcases hmem with h | h
      · rw [h]; exact List.mem_cons_self _ _
      · exact List.mem_cons_of_mem _ h

/-- The padding step on finite bounds with the low flag set. -/
theorem padRange_fin (m M : ℚ) :
    padRange (Dbl.fin m) (Dbl.fin M) true =
      (Dbl.fin (m - (M - m) * (105 / 100) / 2), Dbl.fin (M + (M - m) * (105 / 100) / 2)) := by
  unfold padRange
  simp

theorem computeXLow_arrs (img : TGAImage) : (computeXLow img).arrs = img.arrs := by
  unfold computeXLow; split_ifs <;> rfl
theorem computeXLow_funcs (img : TGAImage) : (computeXLow img).funcs = img.funcs := by
  unfold computeXLow; split_ifs <;> rfl
theorem computeXLow_yrange (img : TGAImage) : (computeXLow img).yrange = img.yrange := by
  unfold computeXLow; split_ifs <;> rfl
theorem computeXHigh_arrs (img : TGAImage) : (computeXHigh img).arrs = img.arrs := by
  unfold computeXHigh; split_ifs <;> rfl
theorem computeXHigh_funcs (img : TGAImage) : (computeXHigh img).funcs = img.funcs := by
  unfold computeXHigh; split_ifs <;> rfl
theorem computeXHigh_yrange (img : TGAImage) : (computeXHigh img).yrange = img.yrange := by
  unfold computeXHigh; split_ifs <;> rfl
theorem computeYLow_arrs (img : TGAImage) (n : Nat) : (computeYLow img n).arrs = img.arrs := by
  unfold computeYLow; split_ifs <;> rfl
theorem computeYLow_funcs (img : TGAImage) (n : Nat) : (computeYLow img n).funcs = img.funcs := by
  unfold computeYLow; split_ifs <;> rfl
theorem computeYLow_xrange (img : TGAImage) (n : Nat) : (computeYLow img n).xrange = img.xrange := by
  unfold computeYLow; split_ifs <;> rfl
theorem computeYHigh_arrs (img : TGAImage) (n : Nat) : (computeYHigh img n).arrs = img.arrs := by
  unfold computeYHigh; split_ifs <;> rfl
theorem computeYHigh_funcs (img : TGAImage) (n : Nat) : (computeYHigh img n).funcs = img.funcs := by
  unfold computeYHigh; split_ifs <;> rfl
theorem computeYHigh_xrange (img : TGAImage) (n : Nat) : (computeYHigh img n).xrange = img.xrange := by
  unfold computeYHigh; split_ifs <;> rfl

/-- The series are not changed by `computeRange`. -/
theorem computeRange_arrs (img : TGAImage) (n : Nat) : (computeRange img n).arrs = img.arrs := by
  unfold computeRange
  rw [computeYHigh_arrs, computeYLow_arrs, computeXHigh_arrs, computeXLow_arrs]

/-- The functions are not changed by `computeRange`. -/
theorem computeRange_funcs (img : TGAImage) (n : Nat) : (computeRange img n).funcs = img.funcs := by
  unfold computeRange
  rw [computeYHigh_funcs, computeYLow_funcs, computeXHigh_funcs, computeXLow_funcs]

/-- The x-range `computeRange` leaves is the one its two x passes compute. -/
theorem computeRange_xrange (img : TGAImage) (n : Nat) :
    (computeRange img n).xrange = (computeXHigh (computeXLow img)).xrange := by
  unfold computeRange
  rw [computeYHigh_xrange, computeYLow_xrange]

/-- With both x bounds NaN, `computeRange` pads the two x passes on both sides. -/
theorem computeRange_xrange_unset (img : TGAImage) (n : Nat)
    (hx : img.xrange = (Dbl.nan, Dbl.nan)) :
    (computeRange img n).xrange = padRange (xLowPass img.arrs) (xHighPass img.arrs) true := by
  rw [computeRange_xrange]
  unfold computeXHigh computeXLow
  simp [hx, Dbl.isnormal]

/-- With both y bounds NaN, `computeRange` pads the two y passes, taken on the
resolved x-range, on both sides. -/
theorem computeRange_yrange_unset (img : TGAImage) (n : Nat)
    (hy : img.yrange = (Dbl.nan, Dbl.nan)) :
    (computeRange img n).yrange =
      padRange
        (yLowPass img.arrs img.funcs (computeRange img n).xrange.1 (computeRange img n).xrange.2 n)
        (yHighPass img.arrs img.funcs (computeRange img n).xrange.1 (computeRange img n).xrange.2 n)
        true := by
  rw [computeRange_xrange]
  have h1 : (computeXHigh (computeXLow img)).yrange = (Dbl.nan, Dbl.nan) := by
    rw [computeXHigh_yrange, computeXLow_yrange, hy]
  have ha : (computeXHigh (computeXLow img)).arrs = img.arrs := by
    rw [computeXHigh_arrs, computeXLow_arrs]
  have hf : (computeXHigh (computeXLow img)).funcs = img.funcs := by
    rw [computeXHigh_funcs, computeXLow_funcs]
  unfold computeRange
  generalize computeXHigh (computeXLow img) = img2 at h1 ha hf
  unfold computeYHigh computeYLow
  simp [h1, ha, hf, Dbl.isnormal]

/-- Pinned x bounds that are normal doubles are kept by `computeRange`. -/
theorem computeRange_xrange_pinned (img : TGAImage) (n : Nat) (lo hi : Dbl)
    (hlo : Dbl.isnormal lo = true) (hhi : Dbl.isnormal hi = true) (hx : img.xrange = (lo, hi)) :
    (computeRange img n).xrange = (lo, hi) := by
  rw [computeRange_xrange]
  unfold computeXHigh computeXLow
  simp [hx, hlo, hhi]

/-- Pinned y bounds that are normal doubles are kept by `computeRange`. -/
theorem computeRange_yrange_pinned (img : TGAImage) (n : Nat) (lo hi : Dbl)
    (hlo : Dbl.isnormal lo = true) (hhi : Dbl.isnormal hi = true) (hy : img.yrange = (lo, hi)) :
    (computeRange img n).yrange = (lo, hi) := by
  have h1 : (computeXHigh (computeXLow img)).yrange = (lo, hi) := by
    rw [computeXHigh_yrange, computeXLow_yrange, hy]
  unfold computeRange
  generalize computeXHigh (computeXLow img) = img2 at h1
  unfold computeYHigh computeYLow
  simp [h1, hlo, hhi]

/-- The padded range of the least `m` and the greatest `M` of a non-empty finite
data list is ordered and spans at least the data. -/
theorem padded_span (data : List Dbl) (hfin : ∀ v ∈ data, v.isFinite = true) (hne : data ≠ []) :
    ∃ lo hi : ℚ, padRange (minLoop data Dbl.pinf) (maxLoop data Dbl.ninf) true =
        (Dbl.fin lo, Dbl.fin hi) ∧ lo ≤ hi ∧
      (∀ v w : ℚ, Dbl.fin v ∈ data → Dbl.fin w ∈ data → v - w ≤ hi - lo) ∧
      (∀ v : ℚ, Dbl.fin v ∈ data → lo ≤ v ∧ v ≤ hi) := by
  obtain ⟨m, hm, hmall, hmmem⟩ := minLoop_pinf data hfin hne
  obtain ⟨M, hM, hMall, hMmem⟩ := maxLoop_ninf data hfin hne
  have hmM : m ≤ M := hMall m hmmem
  refine ⟨_, _, by rw [hm, hM, padRange_fin], ?_, ?_, ?_⟩
  · linarith
  · intro v w hv hw
    have h1 := hMall v hv
    have h2 := hmall w hw
    linarith
  · intro v hv
    have h1 := hMall v hv
    have h2 := hmall v hv
    constructor <;> linarith

theorem mem_yData (img : TGAImage) (xlow xhigh : Dbl) (xres : Nat) (v : Dbl) :
    v ∈ yData img xlow xhigh xres ↔
      (∃ arr ∈ img.arrs, v ∈ arr.2.2) ∨
      (∃ func ∈ img.funcs, ∃ i < xres,
        v = func.2 (xlow + Dbl.ofNat i * ((xhigh - xlow) / Dbl.ofNat xres))) := by
  unfold yData funcSamples
  simp only [List.mem_append, List.mem_flatten, List.mem_map, List.mem_range]
  constructor
  · rintro (⟨l, ⟨arr, harr, rfl⟩, hv⟩ | ⟨l, ⟨func, hfunc, rfl⟩, hv⟩)
    · exact Or.inl ⟨arr, harr, hv⟩
    · obtain ⟨i, hi, rfl⟩ := List.mem_map.mp hv
      exact Or.inr ⟨func, hfunc, i, List.mem_range.mp hi, rfl⟩
  · rintro (⟨arr, harr, hv⟩ | ⟨func, hfunc, i, hi, rfl⟩)
    · exact Or.inl ⟨_, ⟨arr, harr, rfl⟩, hv⟩
    · exact Or.inr ⟨_, ⟨func, hfunc, rfl⟩, List.mem_map.mpr ⟨i, List.mem_range.mpr hi, rfl⟩⟩

/-! ## The claims -/

/-- C1: the scenario of the specification, a function over the x-range pinned to
[0, 6.2832] at 200x50.  `computeRange` does not keep the pinned low bound 0:
`isnormal(0)` is false, the bound is recomputed as the minimum over the (absent)
series, and the resolved x-range is `(+∞, 6.2832)`. -/
theorem pinned_zero_low_recomputed (f : Dbl → Dbl) :
    (pinnedFromZeroImage f).xrange = (Dbl.fin 0, Dbl.fin (62832 / 10000)) ∧
      (computeRange (pinnedFromZeroImage f) 200).xrange = (Dbl.pinf, Dbl.fin (62832 / 10000)) := by
  refine ⟨rfl, ?_⟩
  have h0 : Dbl.isnormal (Dbl.fin 0) = false := by decide!
  have h1 : Dbl.isnormal (Dbl.fin (62832 / 10000)) = true := by decide!
  rw [computeRange_xrange]
  unfold computeXHigh computeXLow
  simp [pinnedFromZeroImage, setXRange, addFunc, addFuncStyled, TGAImage.new, clear, rawImage,
    h0, h1, xLowPass]

/-- C2: for `xs=[0,1,2], ys=[0,1,0]` with no pinned range `computeRange` resolves
the x-range to [-1.05, 3.05] and the y-range to [-0.525, 1.525] (`pad` is 1.05 times
the span), not to [-0.05, 2.05] and [-0.05, 1.05]. -/
theorem computeRange_triangle :
    (computeRange triangleImage 100).xrange = (Dbl.fin (-105 / 100), Dbl.fin (305 / 100)) ∧
      (computeRange triangleImage 100).yrange = (Dbl.fin (-525 / 1000), Dbl.fin (1525 / 1000)) ∧
      (computeRange triangleImage 100).xrange ≠ (Dbl.fin (-5 / 100), Dbl.fin (205 / 100)) ∧
      (computeRange triangleImage 100).yrange ≠ (Dbl.fin (-5 / 100), Dbl.fin (105 / 100)) := by
  decide!

/-- C3: for the function `x ↦ x` with both ranges pinned to [1, 2] at 100x100 the
function loop of `write` does not terminate: whatever number of steps it is given,
it is still running and has written no pixel (the first `do`/`while` loop, entered
with `yip` NaN, never exits). -/
theorem write_function_never_terminates (fuel : Nat) :
    (write identityImage 100 100 fuel).2 = ⟨[], Status.running⟩ := by
  show rasterize (computeRange identityImage 100) 100 100 fuel = _
  have hf : (computeRange identityImage 100).funcs = [(⟨"r"⟩, fun x => x)] := by
    rw [computeRange_funcs]; rfl
  exact rasterize_func_stuck _ 100 100 fuel _ [] (by rw [computeRange_arrs]; rfl) hf (by decide!)

/-- C4: for the series `xs=[0,0], ys=[5,5]` with the ranges pinned to [-1, 1] and
[1, 10] at 100x100 the series walk of `write` does not terminate: after `fuel`
steps it is still running and has written the pixel (50, 44) `fuel` times.  With no
pinned range both resolved spans are zero, the pixel position is NaN, and the walk
ends having written no pixel. -/
theorem write_zero_segment (fuel : Nat) :
    (write zeroSegmentPinnedImage 100 100 fuel).2 =
        ⟨List.replicate fuel ⟨50, 44, ⟨"r"⟩⟩, Status.running⟩ ∧
      (write zeroSegmentImage 100 100 (fuel + 1)).2 = ⟨[], Status.finished⟩ := by
  constructor
  · show rasterize (computeRange zeroSegmentPinnedImage 100) 100 100 fuel = _
    have ha : (computeRange zeroSegmentPinnedImage 100).arrs =
        [(⟨"r"⟩, [Dbl.fin 0, Dbl.fin 0], [Dbl.fin 5, Dbl.fin 5])] := by
      rw [computeRange_arrs]; rfl
    have hf : (computeRange zeroSegmentPinnedImage 100).funcs = [] := by
      rw [computeRange_funcs]; rfl
    rw [rasterize_single_series _ 100 100 fuel _ ha hf, plotSeries_two_points,
      segment_zero_length 100 100 _ _ _ _ _ _ _ 50 (400 / 9) (by decide!) (by decide!) fuel]
    have h1 : clampIndex 100 (Dbl.fin 50) = 50 := by decide!
    have h2 : clampIndex 100 (Dbl.fin (400 / 9)) = 44 := by decide!
    rw [h1, h2]
  · show rasterize (computeRange zeroSegmentImage 100) 100 100 (fuel + 1) = _
    have ha : (computeRange zeroSegmentImage 100).arrs =
        [(⟨"r"⟩, [Dbl.fin 0, Dbl.fin 0], [Dbl.fin 5, Dbl.fin 5])] := by
      rw [computeRange_arrs]; rfl
    have hf : (computeRange zeroSegmentImage 100).funcs = [] := by
      rw [computeRange_funcs]; rfl
    rw [rasterize_single_series _ 100 100 (fuel + 1) _ ha hf, plotSeries_two_points]
    have hx : ((Dbl.fin 0 - (computeRange zeroSegmentImage 100).xrange.1) /
        (((computeRange zeroSegmentImage 100).xrange.2 -
          (computeRange zeroSegmentImage 100).xrange.1) / Dbl.ofNat 100)) = Dbl.nan := by
      decide!
    unfold segment
    simp only [hx]
    unfold walk
    simp

/-- C5: for `xs=[0,1,2], ys=[0,1,0]` at 100x100 on the ranges `computeRange`
resolves, the walk over the second pair of points, from (1, 1) to (2, 0), writes no
pixel however many steps it is given; the whole run of `write` ends with exactly
the 50 pixels of the first pair, none of them right of column 50, the column of
`x = 1`. -/
theorem write_triangle_second_segment (fuel : Nat) :
    segment 100 100 (computeRange triangleImage 100).xrange.1
        (computeRange triangleImage 100).yrange.1
        (((computeRange triangleImage 100).xrange.2 - (computeRange triangleImage 100).xrange.1) /
          Dbl.ofNat 100)
        (((computeRange triangleImage 100).yrange.2 - (computeRange triangleImage 100).yrange.1) /
          Dbl.ofNat 100)
        ⟨"r"⟩ (fuel + 1) (Dbl.fin 1) (Dbl.fin 2) (Dbl.fin 1) (Dbl.fin 0) = ⟨[], Status.finished⟩ ∧
      (write triangleImage 100 100 200).2.status = Status.finished ∧
      (write triangleImage 100 100 200).2.pixels.length = 50 ∧
      (write triangleImage 100 100 200).2.pixels.all (fun p => decide (p.xi ≤ 50)) = true := by
  refine ⟨?_, by decide!, by decide!, by decide!⟩
  exact segment_descending 100 100 _ _ _ _ _ _ _ _ _ (3050 / 41) (1050 / 41) (by decide!)
    (by decide!) (by norm_num) fuel

/-- C8 as stated fails: on a model with no series, no function and no pinned range
`computeRange` leaves the x-range `(+∞, -∞)`, for which `low <= high` is false. -/
theorem computeRange_empty_not_ordered :
    (computeRange emptyImage 100).xrange = (Dbl.pinf, Dbl.ninf) ∧
      Dbl.le (computeRange emptyImage 100).xrange.1 (computeRange emptyImage 100).xrange.2 = false := by
  decide!

/-- C8 (amended): for an axis whose two bounds are both unset (NaN) and whose data
values (for x the x-values of the series, for y the y-values of the series and the
function samples on the resolved x-range) are finite and at least one in number,
the range resolved by `computeRange` is finite, satisfies `low ≤ high`, and its span
`high - low` is at least `v - w` for any two data values `v`, `w` of that axis, hence
at least maximum minus minimum. -/
theorem computeRange_auto_ordered (img : TGAImage) (xres : Nat) :
    (img.xrange = (Dbl.nan, Dbl.nan) → xData img ≠ [] → (∀ v ∈ xData img, v.isFinite = true) →
      ∃ lo hi : ℚ, (computeRange img xres).xrange = (Dbl.fin lo, Dbl.fin hi) ∧ lo ≤ hi ∧
        ∀ v w : ℚ, Dbl.fin v ∈ xData img → Dbl.fin w ∈ xData img → v - w ≤ hi - lo) ∧
    (img.yrange = (Dbl.nan, Dbl.nan) → ySamples img xres ≠ [] →
      (∀ v ∈ ySamples img xres, v.isFinite = true) →
      ∃ lo hi : ℚ, (computeRange img xres).yrange = (Dbl.fin lo, Dbl.fin hi) ∧ lo ≤ hi ∧
        ∀ v w : ℚ, Dbl.fin v ∈ ySamples img xres → Dbl.fin w ∈ ySamples img xres →
          v - w ≤ hi - lo) := by
  constructor
  · intro hx hne hfin
    obtain ⟨lo, hi, hpad, hle, hspan, _⟩ := padded_span (xData img) hfin hne
    refine ⟨lo, hi, ?_, hle, hspan⟩
    rw [computeRange_xrange_unset img xres hx, xLowPass_eq, xHighPass_eq, hpad]
  · intro hy hne hfin
    obtain ⟨lo, hi, hpad, hle, hspan, _⟩ := padded_span (ySamples img xres) hfin hne
    refine ⟨lo, hi, ?_, hle, hspan⟩
    rw [computeRange_yrange_unset img xres hy, yLowPass_eq, yHighPass_eq]
    exact hpad

/-- Witness of C8 (amended): the series `xs=[0,1,2], ys=[0,1,0]` together with the
function `x ↦ x*x`, rendered 4 columns wide. -/
theorem computeRange_auto_ordered_witness :
    (∃ lo hi : ℚ, (computeRange triangleSquareImage 4).xrange = (Dbl.fin lo, Dbl.fin hi) ∧ lo ≤ hi ∧
        ∀ v w : ℚ, Dbl.fin v ∈ xData triangleSquareImage → Dbl.fin w ∈ xData triangleSquareImage →
          v - w ≤ hi - lo) ∧
    (∃ lo hi : ℚ, (computeRange triangleSquareImage 4).yrange = (Dbl.fin lo, Dbl.fin hi) ∧ lo ≤ hi ∧
        ∀ v w : ℚ, Dbl.fin v ∈ ySamples triangleSquareImage 4 →
          Dbl.fin w ∈ ySamples triangleSquareImage 4 → v - w ≤ hi - lo) :=
  ⟨(computeRange_auto_ordered triangleSquareImage 4).1 (by decide!) (by decide!) (by decide!),
   (computeRange_auto_ordered triangleSquareImage 4).2 (by decide!) (by decide!) (by decide!)⟩

/-- C9 as stated fails: for the function `nanBelowZero` over the x-range pinned to
[-1, 1], sampled at 4 columns, the samples are NaN, NaN, 0 and 1/2; both y passes
skip the NaN samples, the y-range resolves to [-21/80, 61/80], and the sample
`f(-1)` = NaN does not lie in it. -/
theorem computeRange_nan_sample_outside :
    (computeRange nanBelowZeroImage 4).xrange = (Dbl.fin (-1), Dbl.fin 1) ∧
      ySamples nanBelowZeroImage 4 = [Dbl.nan, Dbl.nan, Dbl.fin 0, Dbl.fin (1 / 2)] ∧
      yLowRaw nanBelowZeroImage 4 = Dbl.fin 0 ∧
      yHighRaw nanBelowZeroImage 4 = Dbl.fin (1 / 2) ∧
      (computeRange nanBelowZeroImage 4).yrange = (Dbl.fin (-21 / 80), Dbl.fin (61 / 80)) ∧
      nanBelowZero (Dbl.fin (-1)) ∈ ySamples nanBelowZeroImage 4 ∧
      Dbl.le (computeRange nanBelowZeroImage 4).yrange.1 (nanBelowZero (Dbl.fin (-1))) = false ∧
      Dbl.le (nanBelowZero (Dbl.fin (-1))) (computeRange nanBelowZeroImage 4).yrange.2 = false := by
  decide!

/-- C9 (amended): with both y bounds unset (NaN) and finite y-values and function samples,
`computeRange` pads the results `yLowRaw`, `yHighRaw` of its two y passes; these
bound every y-value of every series and every sample
`f(xlow + i*((xhigh-xlow)/xres))`, `i < xres`, of every function on the resolved
x-range, they are attained among those values when there is one, and after padding
every such value lies in `[ylow, yhigh]`. -/
theorem computeRange_y_min_max (img : TGAImage) (xres : Nat)
    (hy : img.yrange = (Dbl.nan, Dbl.nan))
    (hfin : ∀ v ∈ ySamples img xres, v.isFinite = true) :
    (computeRange img xres).yrange = padRange (yLowRaw img xres) (yHighRaw img xres) true ∧
    (∀ v : Dbl, v ∈ ySamples img xres ↔
      (∃ arr ∈ img.arrs, v ∈ arr.2.2) ∨
      (∃ func ∈ img.funcs, ∃ i < xres,
        v = func.2 ((computeRange img xres).xrange.1 + Dbl.ofNat i *
          (((computeRange img xres).xrange.2 - (computeRange img xres).xrange.1) /
            Dbl.ofNat xres)))) ∧
    (∀ v ∈ ySamples img xres,
      Dbl.le (yLowRaw img xres) v = true ∧ Dbl.le v (yHighRaw img xres) = true) ∧
    (ySamples img xres ≠ [] →
      yLowRaw img xres ∈ ySamples img xres ∧ yHighRaw img xres ∈ ySamples img xres) ∧
    (∀ v ∈ ySamples img xres,
      Dbl.le (computeRange img xres).yrange.1 v = true ∧
        Dbl.le v (computeRange img xres).yrange.2 = true) := by
  have hlow : yLowRaw img xres = minLoop (ySamples img xres) Dbl.pinf := by
    unfold yLowRaw ySamples; exact yLowPass_eq _ _ _ _
  have hhigh : yHighRaw img xres = maxLoop (ySamples img xres) Dbl.ninf := by
    unfold yHighRaw ySamples; exact yHighPass_eq _ _ _ _
  have hrange : (computeRange img xres).yrange =
      padRange (yLowRaw img xres) (yHighRaw img xres) true := by
    unfold yLowRaw yHighRaw; exact computeRange_yrange_unset img xres hy
  refine ⟨hrange, fun v => mem_yData img _ _ xres v, ?_, ?_, ?_⟩
  · intro v hv
    have hne : ySamples img xres ≠ [] := List.ne_nil_of_mem hv
    obtain ⟨m, hm, hmall, _⟩ := minLoop_pinf _ hfin hne
    obtain ⟨M, hM, hMall, _⟩ := maxLoop_ninf _ hfin hne
    obtain ⟨q, rfl⟩ := (isFinite_iff v).mp (hfin v hv)
    rw [hlow, hhigh, hm, hM, Dbl.le_fin_fin, Dbl.le_fin_fin]
    exact ⟨decide_eq_true (hmall q hv), decide_eq_true (hMall q hv)⟩
  · intro hne
    obtain ⟨m, hm, _, hmmem⟩ := minLoop_pinf _ hfin hne
    obtain ⟨M, hM, _, hMmem⟩ := maxLoop_ninf _ hfin hne
    rw [hlow, hhigh, hm, hM]
    exact ⟨hmmem, hMmem⟩
  · intro v hv
    have hne : ySamples img xres ≠ [] := List.ne_nil_of_mem hv
    obtain ⟨lo, hi, hpad, _, _, hin⟩ := padded_span _ hfin hne
    obtain ⟨q, rfl⟩ := (isFinite_iff v).mp (hfin v hv)
    rw [hrange, hlow, hhigh, hpad]
    show Dbl.le (Dbl.fin lo) (Dbl.fin q) = true ∧ Dbl.le (Dbl.fin q) (Dbl.fin hi) = true
    rw [Dbl.le_fin_fin, Dbl.le_fin_fin]
    exact ⟨decide_eq_true (hin q hv).1, decide_eq_true (hin q hv).2⟩

/-- Witness of C9 (amended): the series `xs=[0,1,2], ys=[0,1,0]` together with the function
`x ↦ x*x`, rendered 4 columns wide; the bounds before padding are 0 and 6561/1600. -/
theorem computeRange_y_min_max_witness :
    (yLowRaw triangleSquareImage 4 = Dbl.fin 0 ∧
      yHighRaw triangleSquareImage 4 = Dbl.fin (6561 / 1600)) ∧
    ((computeRange triangleSquareImage 4).yrange =
        padRange (yLowRaw triangleSquareImage 4) (yHighRaw triangleSquareImage 4) true ∧
    (∀ v : Dbl, v ∈ ySamples triangleSquareImage 4 ↔
      (∃ arr ∈ triangleSquareImage.arrs, v ∈ arr.2.2) ∨
      (∃ func ∈ triangleSquareImage.funcs, ∃ i < 4,
        v = func.2 ((computeRange triangleSquareImage 4).xrange.1 + Dbl.ofNat i *
          (((computeRange triangleSquareImage 4).xrange.2 -
            (computeRange triangleSquareImage 4).xrange.1) / Dbl.ofNat 4)))) ∧
    (∀ v ∈ ySamples triangleSquareImage 4,
      Dbl.le (yLowRaw triangleSquareImage 4) v = true ∧
        Dbl.le v (yHighRaw triangleSquareImage 4) = true) ∧
    (ySamples triangleSquareImage 4 ≠ [] →
      yLowRaw triangleSquareImage 4 ∈ ySamples triangleSquareImage 4 ∧
        yHighRaw triangleSquareImage 4 ∈ ySamples triangleSquareImage 4) ∧
    (∀ v ∈ ySamples triangleSquareImage 4,
      Dbl.le (computeRange triangleSquareImage 4).yrange.1 v = true ∧
        Dbl.le v (computeRange triangleSquareImage 4).yrange.2 = true)) :=
  ⟨by decide!, computeRange_y_min_max triangleSquareImage 4 (by decide!) (by decide!)⟩

/-- C11: on a cleared model two series added with `addArray` without a style are
both stored with the first palette entry "r", for the y-only overload and for the
x/y overload, and the cursor stays at the first entry: `addArray` tests the cursor
against `colors.end()` but never advances it.  Two functions added with `addFunc`
do get "r" and then "g". -/
theorem addArray_twice_same_style (img : TGAImage) (sz1 sz2 : Nat) (a1 a2 b1 b2 : Nat → Dbl)
    (f g : Dbl → Dbl) :
    (addArray (addArray (clear img) sz1 a1) sz2 a2).arrs.map (fun arr => arr.1) =
        [⟨"r"⟩, ⟨"r"⟩] ∧
      (addArrayXY (addArrayXY (clear img) sz1 a1 b1) sz2 a2 b2).arrs.map (fun arr => arr.1) =
        [⟨"r"⟩, ⟨"r"⟩] ∧
      (addArray (addArray (clear img) sz1 a1) sz2 a2).curr_color = 0 ∧
      (addFunc (addFunc (clear img) f) g).funcs.map (fun func => func.1) = [⟨"r"⟩, ⟨"g"⟩] := by
  refine ⟨rfl, rfl, rfl, rfl⟩

/-- C13: `clear` yields the default state from every state: resolution (1024, 768),
all four range bounds NaN, no series, no function, the 12-entry palette
r, g, b, y, c, p, -r, -g, -b, -y, -c, -p and the cursor at its first entry; `clear`
is idempotent; the constructor yields the same state with the resolution
`(xres, yres)`. -/
theorem clear_default (img : TGAImage) (xres yres : Nat) :
    (clear img).res = (1024, 768) ∧
      (clear img).xrange = (Dbl.nan, Dbl.nan) ∧ (clear img).yrange = (Dbl.nan, Dbl.nan) ∧
      (clear img).arrs = [] ∧ (clear img).funcs = [] ∧
      (clear img).colors.map (fun c => c.token) =
        ["r", "g", "b", "y", "c", "p", "-r", "-g", "-b", "-y", "-c", "-p"] ∧
      (clear img).colors.length = 12 ∧
      (clear img).curr_color = 0 ∧ (clear img).axes = false ∧
      clear (clear img) = clear img ∧
      (TGAImage.new img xres yres).res = (xres, yres) ∧
      TGAImage.new img xres yres = setRes (clear img) xres yres := by
  refine ⟨rfl, rfl, rfl, rfl, rfl, rfl, rfl, rfl, rfl, rfl, rfl, rfl⟩

/-- C14: `addArray(sz, array)` appends exactly one series to the stored ones; its
x-vector has `sz` elements, the `i`-th being `i`, its y-vector has `sz` elements,
the `i`-th being `array[i]`; the functions are left as they were. -/
theorem addArray_appends_indexed (img : TGAImage) (sz : Nat) (array : Nat → Dbl) :
    ∃ sty : StyleT, ∃ xs ys : List Dbl,
      (addArray img sz array).arrs = img.arrs ++ [(sty, xs, ys)] ∧
      (addArray img sz array).funcs = img.funcs ∧
      xs.length = sz ∧ ys.length = sz ∧
      ∀ i : Nat, i < sz → xs.get? i = some (Dbl.fin (i : ℚ)) ∧ ys.get? i = some (array i) := by
  refine ⟨img.colors.getD img.curr_color ⟨""⟩, (List.range sz).map (fun ii => Dbl.ofNat ii),
    (List.range sz).map array, rfl, rfl, by simp, by simp, ?_⟩
  intro i hi
  simp [List.getElem?_range, hi, Dbl.ofNat]

/-- Witness of C14: the array [7, 8, 9] added to the model that already holds the
series `xs=[0,1,2], ys=[0,1,0]`; the element of index 2 is (2, 9). -/
theorem addArray_appends_indexed_witness :
    2 < 3 ∧
    ∃ sty : StyleT, ∃ xs ys : List Dbl,
      (addArray triangleImage 3 (arrayOf [Dbl.fin 7, Dbl.fin 8, Dbl.fin 9])).arrs =
        triangleImage.arrs ++ [(sty, xs, ys)] ∧
      (addArray triangleImage 3 (arrayOf [Dbl.fin 7, Dbl.fin 8, Dbl.fin 9])).funcs =
        triangleImage.funcs ∧
      xs.length = 3 ∧ ys.length = 3 ∧
      xs.get? 2 = some (Dbl.fin ((2 : Nat) : ℚ)) ∧
      ys.get? 2 = some (arrayOf [Dbl.fin 7, Dbl.fin 8, Dbl.fin 9] 2) ∧
      arrayOf [Dbl.fin 7, Dbl.fin 8, Dbl.fin 9] 2 = Dbl.fin 9 := by
  obtain ⟨sty, xs, ys, h1, h2, h3, h4, h5⟩ :=
    addArray_appends_indexed triangleImage 3 (arrayOf [Dbl.fin 7, Dbl.fin 8, Dbl.fin 9])
  exact ⟨by decide, sty, xs, ys, h1, h2, h3, h4, (h5 2 (by decide)).1, (h5 2 (by decide)).2, rfl⟩

/-! ## Facts about the header and the frame of `write` -/

theorem and_low_byte (x : Nat) : x &&& 0x00FF = x % 256 := by
  have h := Nat.and_pow_two_sub_one_eq_mod x 8
  simpa using h

theorem and_high_byte (x : Nat) : (x &&& 0xFF00) / 256 = (x / 256) % 256 := by
  have h1 : (x &&& 0xFF00) / 256 = (x &&& 0xFF00) >>> 8 := by rw [Nat.shiftRight_eq_div_pow]
  have h2 : (x &&& 0xFF00) >>> 8 = (x >>> 8) &&& (2 ^ 8 - 1) := by
    apply Nat.eq_of_testBit_eq
    intro j
    have h3 : (0xFF00 : Nat) = (2 ^ 8 - 1) <<< 8 := by decide
    rw [h3]
    simp only [Nat.testBit_shiftRight, Nat.testBit_and, Nat.testBit_shiftLeft,
      Nat.testBit_two_pow_sub_one]
    simp
  rw [h1, h2, Nat.and_pow_two_sub_one_eq_mod, Nat.shiftRight_eq_div_pow]

theorem putByte_low (x : Nat) : putByte (x &&& 0x00FF) = x &&& 0x00FF := by
  unfold putByte
  rw [and_low_byte]
  exact Nat.mod_eq_of_lt (Nat.mod_lt _ (by decide))

theorem putByte_high (x : Nat) : putByte ((x &&& 0xFF00) / 256) = (x &&& 0xFF00) / 256 := by
  unfold putByte
  rw [and_high_byte]
  exact Nat.mod_eq_of_lt (Nat.mod_lt _ (by decide))

theorem computeXLow_frame (img : TGAImage) :
    (computeXLow img).res = img.res ∧ (computeXLow img).colors = img.colors ∧
      (computeXLow img).curr_color = img.curr_color := by
  unfold computeXLow; split_ifs <;> exact ⟨rfl, rfl, rfl⟩

theorem computeXHigh_frame (img : TGAImage) :
    (computeXHigh img).res = img.res ∧ (computeXHigh img).colors = img.colors ∧
      (computeXHigh img).curr_color = img.curr_color := by
  unfold computeXHigh; split_ifs <;> exact ⟨rfl, rfl, rfl⟩

theorem computeYLow_frame (img : TGAImage) (n : Nat) :
    (computeYLow img n).res = img.res ∧ (computeYLow img n).colors = img.colors ∧
      (computeYLow img n).curr_color = img.curr_color := by
  unfold computeYLow; split_ifs <;> exact ⟨rfl, rfl, rfl⟩

theorem computeYHigh_frame (img : TGAImage) (n : Nat) :
    (computeYHigh img n).res = img.res ∧ (computeYHigh img n).colors = img.colors ∧
      (computeYHigh img n).curr_color = img.curr_color := by
  unfold computeYHigh; split_ifs <;> exact ⟨rfl, rfl, rfl⟩

/-- The resolution, the palette and the cursor are not changed by `computeRange`. -/
theorem computeRange_frame (img : TGAImage) (n : Nat) :
    (computeRange img n).res = img.res ∧ (computeRange img n).colors = img.colors ∧
      (computeRange img n).curr_color = img.curr_color := by
  unfold computeRange
  obtain ⟨a1, a2, a3⟩ := computeXLow_frame img
  obtain ⟨b1, b2, b3⟩ := computeXHigh_frame (computeXLow img)
  obtain ⟨c1, c2, c3⟩ := computeYLow_frame (computeXHigh (computeXLow img)) n
  obtain ⟨d1, d2, d3⟩ := computeYHigh_frame (computeYLow (computeXHigh (computeXLow img)) n) n
  exact ⟨by rw [d1, c1, b1, a1], by rw [d2, c2, b2, a2], by rw [d3, c3, b3, a3]⟩

/-- C16: the first 18 bytes `write` emits are 0, 0, 10, five zeros, two zeros, two
zeros, `xres & 0xFF`, `(xres & 0xFF00)/256`, `yres & 0xFF`, `(yres & 0xFF00)/256`,
32, 8, for every `xres` and `yres`; for `xres < 65536` bytes 12 and 13 decode
little-endian to `xres`, and for `yres < 65536` bytes 14 and 15 decode to `yres`. -/
theorem header_bytes (xres yres : Nat) :
    header xres yres =
        [0, 0, 10, 0, 0, 0, 0, 0, 0, 0, 0, 0,
          xres &&& 0x00FF, (xres &&& 0xFF00) / 256, yres &&& 0x00FF, (yres &&& 0xFF00) / 256,
          32, 8] ∧
      (header xres yres).length = 18 ∧
      (xres < 65536 → (header xres yres).getD 12 0 + 256 * (header xres yres).getD 13 0 = xres) ∧
      (yres < 65536 → (header xres yres).getD 14 0 + 256 * (header xres yres).getD 15 0 = yres) := by
  have hh : header xres yres =
      [0, 0, 10, 0, 0, 0, 0, 0, 0, 0, 0, 0,
        xres &&& 0x00FF, (xres &&& 0xFF00) / 256, yres &&& 0x00FF, (yres &&& 0xFF00) / 256,
        32, 8] := by
    unfold header
    rw [putByte_low, putByte_high, putByte_low, putByte_high]
    rfl
  refine ⟨hh, by rw [hh]; rfl, ?_, ?_⟩
  · intro hx
    rw [hh]
    show (xres &&& 0x00FF) + 256 * ((xres &&& 0xFF00) / 256) = xres
    rw [and_low_byte, and_high_byte]
    omega
  · intro hy
    rw [hh]
    show (yres &&& 0x00FF) + 256 * ((yres &&& 0xFF00) / 256) = yres
    rw [and_low_byte, and_high_byte]
    omega

/-- Witness of C16: the header for 200x50 and the decoding of its size fields. -/
theorem header_bytes_witness :
    header 200 50 = [0, 0, 10, 0, 0, 0, 0, 0, 0, 0, 0, 0, 200, 0, 50, 0, 32, 8] ∧
      (header 1024 768).getD 12 0 + 256 * (header 1024 768).getD 13 0 = 1024 ∧
      (header 1024 768).getD 14 0 + 256 * (header 1024 768).getD 15 0 = 768 :=
  ⟨by decide, (header_bytes 1024 768).2.2.1 (by decide), (header_bytes 1024 768).2.2.2 (by decide)⟩

/-- C17: `write(xres, yres, fname)` leaves the stored resolution `res`, the series,
the functions, the palette and the style cursor as they were, for every `xres`,
`yres` and every number of loop steps; `write(fname)` is `write` at the stored
resolution `(res[0], res[1])`. -/
theorem write_keeps_resolution (img : TGAImage) (xres yres fuel : Nat) :
    (write img xres yres fuel).1.res = img.res ∧
      (write img xres yres fuel).1.arrs = img.arrs ∧
      (write img xres yres fuel).1.funcs = img.funcs ∧
      (write img xres yres fuel).1.colors = img.colors ∧
      (write img xres yres fuel).1.curr_color = img.curr_color ∧
      writeDefault img fuel = write img img.res.1 img.res.2 fuel ∧
      (writeDefault img fuel).2 =
        rasterize (computeRange img img.res.1) img.res.1 img.res.2 fuel := by
  obtain ⟨h1, h2, h3⟩ := computeRange_frame img xres
  exact ⟨h1, computeRange_arrs img xres, computeRange_funcs img xres, h2, h3, rfl, rfl⟩

/-! ## Facts about the style cursor -/

/-- One `addFunc(f)` on a model that holds the palette with the cursor inside it. -/
theorem addFunc_step (img : TGAImage) (f : Dbl → Dbl) (hc : img.colors = palette) :
    (addFunc img f).colors = palette ∧
      (addFunc img f).funcs = img.funcs ++ [(palette.getD img.curr_color ⟨""⟩, f)] ∧
      (addFunc img f).curr_color = if img.curr_color + 1 = 12 then 0 else img.curr_color + 1 := by
  refine ⟨?_, ?_, ?_⟩
  · show img.colors = palette
    exact hc
  · show img.funcs ++ [(img.colors.getD img.curr_color ⟨""⟩, f)] = _
    rw [hc]
  · show (if img.curr_color + 1 = img.colors.length then 0 else img.curr_color + 1) = _
    rw [hc]
    rfl

/-- The state after any number of `addFunc(f)` calls on a cleared model. -/
theorem addFuncs_state (img : TGAImage) (functions : List (Dbl → Dbl)) :
    (addFuncs (clear img) functions).colors = palette ∧
      (addFuncs (clear img) functions).curr_color = functions.length % 12 ∧
      (addFuncs (clear img) functions).funcs.length = functions.length ∧
      ∀ k : Nat, ∀ f : Dbl → Dbl, functions.get? k = some f →
        (addFuncs (clear img) functions).funcs.get? k = some (palette.getD (k % 12) ⟨""⟩, f) := by
  induction functions using List.reverseRecOn with
  | nil => exact ⟨rfl, rfl, rfl, by intro k f h; simp at h⟩
  | append_singleton fs g ih =>
    obtain ⟨hc, hcur, hlen, hget⟩ := ih
    have hfold : addFuncs (clear img) (fs ++ [g]) = addFunc (addFuncs (clear img) fs) g := by
      unfold addFuncs; rw [List.foldl_append]; rfl
    obtain ⟨s1, s2, s3⟩ := addFunc_step (addFuncs (clear img) fs) g hc
    rw [hfold]
    refine ⟨s1, ?_, ?_, ?_⟩
    · rw [s3, hcur, List.length_append, List.length_singleton]
      split_ifs with h <;> omega
    · rw [s2, List.length_append, List.length_append, hlen]; rfl
    · intro k f hk
      rw [s2, hcur]
      rw [List.get?_eq_getElem?] at hk ⊢
      by_cases hlt : k < fs.length
      · rw [List.getElem?_append_left (by rw [hlen]; exact hlt)]
        rw [List.getElem?_append_left hlt] at hk
        have h := hget k f (by rw [List.get?_eq_getElem?]; exact hk)
        rw [List.get?_eq_getElem?] at h
        exact h
      · have hkl : fs.length ≤ k := Nat.le_of_not_lt hlt
        rw [List.getElem?_append_right hkl] at hk
        rw [List.getElem?_append_right (by rw [hlen]; exact hkl), hlen]
        cases hd : k - fs.length with
        | zero =>
          rw [hd] at hk
          simp only [List.getElem?_cons_zero, Option.some.injEq] at hk
          have hk2 : k = fs.length := by omega
          subst hk hk2
          rfl
        | succ m => rw [hd] at hk; simp at hk

/-- C12: on a cleared model the `k`-th function added with `addFunc(f)` (counted
from 0) is stored, with its function, under palette entry `k mod 12` of the
12-entry palette, and after `n` calls the cursor stands at entry `n mod 12`: it
advances by one per call and wraps from the last entry to the first. -/
theorem addFunc_round_robin (img : TGAImage) (functions : List (Dbl → Dbl)) (k : Nat)
    (hk : k < functions.length) :
    palette.length = 12 ∧
      (addFuncs (clear img) functions).curr_color = functions.length % 12 ∧
      ∃ f : Dbl → Dbl, functions.get? k = some f ∧
        (addFuncs (clear img) functions).funcs.get? k =
          some (palette.getD (k % 12) ⟨""⟩, f) := by
  obtain ⟨_, hcur, _, hget⟩ := addFuncs_state img functions
  refine ⟨rfl, hcur, functions.get ⟨k, hk⟩, List.get?_eq_get hk, ?_⟩
  exact hget k _ (List.get?_eq_get hk)

/-- Witness of C12: thirteen functions; the thirteenth (index 12) is stored under
the first palette entry "r" again. -/
theorem addFunc_round_robin_witness :
    palette.getD (12 % 12) ⟨""⟩ = ⟨"r"⟩ ∧
    (palette.length = 12 ∧
      (addFuncs (clear emptyImage) (List.replicate 13 (fun x => x))).curr_color =
        (List.replicate 13 (fun x : Dbl => x)).length % 12 ∧
      ∃ f : Dbl → Dbl, (List.replicate 13 (fun x : Dbl => x)).get? 12 = some f ∧
        (addFuncs (clear emptyImage) (List.replicate 13 (fun x => x))).funcs.get? 12 =
          some (palette.getD (12 % 12) ⟨""⟩, f)) :=
  ⟨rfl, addFunc_round_robin emptyImage (List.replicate 13 (fun x => x)) 12 (by decide)⟩

/-! ## Facts about the `assert` of `write` -/

theorem walk_status (xres yres : Nat) (sty : StyleT) (xf yf dx dy : Dbl) (fuel : Nat) :
    ∀ xp yp : Dbl, (walk xres yres sty xf yf dx dy fuel xp yp).status ≠ Status.aborted := by
  induction fuel with
  | zero => intro xp yp; simp [walk]
  | succ n ih =>
    intro xp yp
    unfold walk
    split_ifs
    · exact ih _ _
    · simp

theorem andThen_status (r : Run) (next : Unit → Run) (h1 : r.status ≠ Status.aborted)
    (h2 : (next ()).status ≠ Status.aborted) : (r.andThen next).status ≠ Status.aborted := by
  unfold Run.andThen
  split
  · exact h2
  · exact h1

theorem seriesLoop_status (xres yres : Nat) (xlow ylow xstep ystep : Dbl) (sty : StyleT)
    (fuel : Nat) (xarr yarr : List Dbl) (todo : Nat) :
    ∀ ii : Nat, (seriesLoop xres yres xlow ylow xstep ystep sty fuel xarr yarr todo ii).status ≠
      Status.aborted := by
  induction todo with
  | zero => intro ii; simp [seriesLoop]
  | succ n ih =>
    intro ii
    unfold seriesLoop
    exact andThen_status _ _ (walk_status _ _ _ _ _ _ _ _ _ _) (ih _)

theorem plotSeries_status (xres yres : Nat) (xlow ylow xstep ystep : Dbl) (fuel : Nat)
    (arr : Series) (h : arr.2.1.length = arr.2.2.length) :
    (plotSeries xres yres xlow ylow xstep ystep fuel arr).status ≠ Status.aborted := by
  unfold plotSeries
  rw [if_pos h]
  exact seriesLoop_status _ _ _ _ _ _ _ _ _ _ _ _

theorem runAll_status {α : Type} (body : α → Run) (l : List α)
    (h : ∀ a ∈ l, (body a).status ≠ Status.aborted) : (runAll body l).status ≠ Status.aborted := by
  induction l with
  | nil => simp [runAll]
  | cons a rest ih =>
    unfold runAll
    exact andThen_status _ _ (h a (List.mem_cons_self _ _))
      (ih (fun b hb => h b (List.mem_cons_of_mem _ hb)))

theorem funcLoop_status (xlow xhigh ylow xstep ystep : Dbl) (sty : StyleT) (foo : Dbl → Dbl)
    (fuel outer : Nat) :
    ∀ xx yip : Dbl, (funcLoop xlow xhigh ylow xstep ystep sty foo fuel outer xx yip).status ≠
      Status.aborted := by
  induction outer with
  | zero => intro xx yip; simp [funcLoop]
  | succ n ih =>
    intro xx yip
    unfold funcLoop
    split_ifs
    · split
      · simp
      · exact ih _ _
    · simp

/-- The buffer filling of `write` stops at the `assert` only for a series whose two
vectors differ in length. -/
theorem rasterize_status (img : TGAImage) (xres yres fuel : Nat) (h : lengthsAgree img) :
    (rasterize img xres yres fuel).status ≠ Status.aborted := by
  unfold rasterize
  apply andThen_status
  · exact runAll_status _ _ (fun arr harr => plotSeries_status _ _ _ _ _ _ _ arr (h arr harr))
  · exact runAll_status _ _ (fun func _ => funcLoop_status _ _ _ _ _ _ _ _ _ _ _)

theorem write_status (img : TGAImage) (xres yres fuel : Nat) (h : lengthsAgree img) :
    (write img xres yres fuel).2.status ≠ Status.aborted := by
  show (rasterize (computeRange img xres) xres yres fuel).status ≠ Status.aborted
  apply rasterize_status
  intro arr harr
  rw [computeRange_arrs] at harr
  exact h arr harr

theorem lengthsAgree_append (img img2 : TGAImage) (sty : StyleT) (sz : Nat) (f g : Nat → Dbl)
    (h : lengthsAgree img)
    (h2 : img2.arrs = img.arrs ++ [(sty, (List.range sz).map f, (List.range sz).map g)]) :
    lengthsAgree img2 := by
  intro arr harr
  rw [h2, List.mem_append] at harr
  rcases harr with harr | harr
  · exact h arr harr
  · rw [List.mem_singleton] at harr
    subst harr
    simp

/-- C19: when at least one of the pixel-space displacements `dx`, `dy` of a segment
is zero, the divisor of the step normalisation (`dx+1` when `dx > dy`, otherwise
`dy+1`) is not zero; `normalizeStep` divides both displacements by that divisor. -/
theorem stepDivisor_ne_zero (dx dy : Dbl) (h : dx = Dbl.fin 0 ∨ dy = Dbl.fin 0) :
    stepDivisor dx dy ≠ Dbl.fin 0 ∧
      normalizeStep dx dy = (dx / stepDivisor dx dy, dy / stepDivisor dx dy) := by
  constructor
  · unfold stepDivisor Dbl.gt
    rcases h with rfl | rfl
    · cases dy with
      | nan => simp [Dbl.add_def, Dbl.add]
      | ninf => simp
      | pinf => simp [Dbl.add_def, Dbl.add]
      | fin q =>
        simp only [Dbl.lt_fin_fin, Dbl.fin_add_fin]
        split_ifs with hq
        · simp
        · simp only [decide_eq_true_eq, not_lt] at hq
          intro hc
          injection hc with hc
          linarith
    · cases dx with
      | nan => simp
      | ninf => simp
      | pinf => simp [Dbl.add_def, Dbl.add]
      | fin q =>
        simp only [Dbl.lt_fin_fin, Dbl.fin_add_fin]
        split_ifs with hq
        · simp only [decide_eq_true_eq] at hq
          intro hc
          injection hc with hc
          linarith
        · simp
  · unfold normalizeStep stepDivisor
    split_ifs <;> rfl

/-- Witness of C19: the vertical segment with `dx = 0`, `dy = 5` has the divisor 6. -/
theorem stepDivisor_ne_zero_witness :
    stepDivisor (Dbl.fin 0) (Dbl.fin 5) = Dbl.fin 6 ∧
    (stepDivisor (Dbl.fin 0) (Dbl.fin 5) ≠ Dbl.fin 0 ∧
      normalizeStep (Dbl.fin 0) (Dbl.fin 5) =
        (Dbl.fin 0 / stepDivisor (Dbl.fin 0) (Dbl.fin 5),
          Dbl.fin 5 / stepDivisor (Dbl.fin 0) (Dbl.fin 5))) :=
  ⟨by decide!, stepDivisor_ne_zero (Dbl.fin 0) (Dbl.fin 5) (Or.inl rfl)⟩

/-- C20: the equality of the x- and y-lengths of every stored series holds after
`clear`, is preserved by the four `addArray` overloads, by `setXRange`, `setYRange`,
`setRes`, by the `addFunc` overloads and by `write`, and under it the `assert` of
line 233 does not fail in `write`, however many loop steps are run. -/
theorem lengths_invariant (img : TGAImage) (h : lengthsAgree img) (raw : TGAImage)
    (sty : StyleT) (token : String) (sz xres yres fuel : Nat) (array xarr yarr : Nat → Dbl)
    (low high : Dbl) (f : Dbl → Dbl) :
    lengthsAgree (clear raw) ∧
      lengthsAgree (addArray img sz array) ∧
      lengthsAgree (addArrayXY img sz xarr yarr) ∧
      lengthsAgree (addArrayStyled img sty sz array xarr yarr) ∧
      lengthsAgree (addArrayStyledXY img sty sz xarr yarr) ∧
      lengthsAgree (setXRange img low high) ∧
      lengthsAgree (setYRange img low high) ∧
      lengthsAgree (setRes img xres yres) ∧
      lengthsAgree (addFunc img f) ∧
      lengthsAgree (addFuncStyled img sty f) ∧
      lengthsAgree (addFuncToken img token f) ∧
      lengthsAgree (write img xres yres fuel).1 ∧
      (write img xres yres fuel).2.status ≠ Status.aborted := by
  refine ⟨?_, ?_, ?_, ?_, ?_, h, h, h, h, h, h, ?_, write_status img xres yres fuel h⟩
  · intro arr harr
    simp [clear] at harr
  · exact lengthsAgree_append img _ _ sz _ _ h rfl
  · exact lengthsAgree_append img _ _ sz _ _ h rfl
  · exact lengthsAgree_append img _ _ sz _ _ h rfl
  · exact lengthsAgree_append img _ _ sz _ _ h rfl
  · intro arr harr
    have harr2 : arr ∈ (computeRange img xres).arrs := harr
    rw [computeRange_arrs] at harr2
    exact h arr harr2

/-- Witness of C20: the model holding the series `xs=[0,1,2], ys=[0,1,0]`. -/
theorem lengths_invariant_witness :
    lengthsAgree triangleImage ∧
    (lengthsAgree (clear emptyImage) ∧
      lengthsAgree (addArray triangleImage 2 (arrayOf [Dbl.fin 7, Dbl.fin 8])) ∧
      lengthsAgree (addArrayXY triangleImage 2 (arrayOf [Dbl.fin 1, Dbl.fin 2])
        (arrayOf [Dbl.fin 7, Dbl.fin 8])) ∧
      lengthsAgree (addArrayStyled triangleImage ⟨"b"⟩ 2 (arrayOf [Dbl.fin 7, Dbl.fin 8])
        (arrayOf [Dbl.fin 1, Dbl.fin 2]) (arrayOf [Dbl.fin 7, Dbl.fin 8])) ∧
      lengthsAgree (addArrayStyledXY triangleImage ⟨"b"⟩ 2 (arrayOf [Dbl.fin 1, Dbl.fin 2])
        (arrayOf [Dbl.fin 7, Dbl.fin 8])) ∧
      lengthsAgree (setXRange triangleImage (Dbl.fin 1) (Dbl.fin 2)) ∧
      lengthsAgree (setYRange triangleImage (Dbl.fin 1) (Dbl.fin 2)) ∧
      lengthsAgree (setRes triangleImage 200 50) ∧
      lengthsAgree (addFunc triangleImage (fun x => x)) ∧
      lengthsAgree (addFuncStyled triangleImage ⟨"b"⟩ (fun x => x)) ∧
      lengthsAgree (addFuncToken triangleImage "b" (fun x => x)) ∧
      lengthsAgree (write triangleImage 200 50 300).1 ∧
      (write triangleImage 200 50 300).2.status ≠ Status.aborted) :=
  ⟨by intro arr harr; simp [triangleImage, addArrayXY, TGAImage.new, clear] at harr; subst harr; rfl,
   lengths_invariant triangleImage
     (by intro arr harr; simp [triangleImage, addArrayXY, TGAImage.new, clear] at harr
         subst harr; rfl)
     emptyImage ⟨"b"⟩ "b" 2 200 50 300 (arrayOf [Dbl.fin 7, Dbl.fin 8])
     (arrayOf [Dbl.fin 1, Dbl.fin 2]) (arrayOf [Dbl.fin 7, Dbl.fin 8]) (Dbl.fin 1) (Dbl.fin 2)
     (fun x => x)⟩

/-! ## Facts about degenerate ranges -/

/-- Every quotient by a zero step is NaN or an infinity. -/
theorem div_zero_not_finite (v : Dbl) : (v / Dbl.fin 0).isFinite = false := by
  cases v with
  | nan => rfl
  | ninf => simp [Dbl.div_def, Dbl.div, Dbl.isFinite]
  | pinf => simp [Dbl.div_def, Dbl.div, Dbl.isFinite]
  | fin q =>
    simp only [Dbl.div_def, Dbl.div, if_true, Dbl.infOf, Dbl.sgn]
    split_ifs <;> rfl

/-- The step of a zero span at a resolution of at least 1 is zero. -/
theorem zero_span_step (a : ℚ) (n : Nat) (hn : 1 ≤ n) :
    (Dbl.fin a - Dbl.fin a) / Dbl.ofNat n = Dbl.fin 0 := by
  have hn0 : (n : ℚ) ≠ 0 := by
    have : (0 : ℚ) < (n : ℚ) := by exact_mod_cast hn
    exact ne_of_gt this
  unfold Dbl.ofNat
  rw [Dbl.fin_sub_fin, Dbl.fin_div_fin _ _ hn0]
  simp

theorem Dbl.add_nan_right (a : Dbl) : a + Dbl.nan = Dbl.nan := by cases a <;> rfl

theorem walk_nan_x (xres yres : Nat) (sty : StyleT) (xf yf dx dy : Dbl) (fuel : Nat) (yp : Dbl) :
    (walk xres yres sty xf yf dx dy fuel Dbl.nan yp).pixels = [] := by
  cases fuel with
  | zero => rfl
  | succ n => unfold walk; simp

theorem walk_nan_y (xres yres : Nat) (sty : StyleT) (xf yf dx dy : Dbl) (fuel : Nat) (xp : Dbl) :
    (walk xres yres sty xf yf dx dy fuel xp Dbl.nan).pixels = [] := by
  cases fuel with
  | zero => rfl
  | succ n => unfold walk; simp

/-- With a NaN increment the walk writes at most one pixel. -/
theorem walk_nan_step (xres yres : Nat) (sty : StyleT) (xf yf dx dy : Dbl) (fuel : Nat)
    (xp yp : Dbl) (h : dx = Dbl.nan ∨ dy = Dbl.nan) :
    (walk xres yres sty xf yf dx dy fuel xp yp).pixels.length ≤ 1 := by
  cases fuel with
  | zero => simp [walk]
  | succ n =>
    unfold walk
    split_ifs
    · rcases h with rfl | rfl
      · simp [Dbl.add_nan_right, walk_nan_x]
      · simp [Dbl.add_nan_right, walk_nan_y]
    · simp

theorem walk_not_entered (xres yres : Nat) (sty : StyleT) (xf yf dx dy : Dbl) (fuel : Nat)
    (xp yp : Dbl) (h : (Dbl.le xp xf && Dbl.le yp yf) = false) :
    (walk xres yres sty xf yf dx dy fuel xp yp).pixels = [] := by
  cases fuel with
  | zero => rfl
  | succ n => unfold walk; simp [h]

/-- When the loop of lines 252-259 is entered at a position that is not finite on
both axes, one of the normalised increments is NaN. -/
theorem normalizeStep_not_finite (xp xf yp yf : Dbl) (hx : Dbl.le xp xf = true)
    (hy : Dbl.le yp yf = true)
    (hnf : (xp.isFinite && xf.isFinite && yp.isFinite && yf.isFinite) = false) :
    (normalizeStep (xf - xp) (yf - yp)).1 = Dbl.nan ∨
      (normalizeStep (xf - xp) (yf - yp)).2 = Dbl.nan := by
  cases xp <;> cases xf <;> cases yp <;> cases yf <;>
    simp [Dbl.isFinite] at hx hy hnf <;>
    simp [normalizeStep, Dbl.gt, Dbl.sub_def, Dbl.sub, Dbl.neg, Dbl.add_def, Dbl.add,
      Dbl.div_def, Dbl.div, Dbl.lt]

end TGAPlot
